import Mathlib

set_option maxHeartbeats 1000000

/-! Verification development for the Open Australian Legal Corpus creator.
This file gives a shallow embedding of the core fetch/retry engine
(`oalc_creator/scraper.py`), the helpers (`oalc_creator/helpers.py`) and the
relevant parts of the source-specific scrapers, and proves theorems checking
the natural-language specification's claims against that embedding. -/

namespace Oalc

/-! Embedding of `helpers.batch_generator` (helpers.py lines 137-143).

The Python generator is

    iterator = iter(iterable)
    for first in iterator:
        yield list(itertools.chain([first], itertools.islice(iterator, batch_size - 1)))

i.e. it repeatedly takes one element (`first`) and then up to `batch_size - 1`
further elements from the same iterator.  On a (finite) list this is the
following recursion. -/

/-- Embedding of `helpers.batch_generator`: take one element, then up to
`batch_size - 1` more, and recurse on the remainder of the iterator. -/
def batch_generator {α : Type} (l : List α) (batch_size : Nat) : List (List α) :=
  match l with
  | [] => []
  | first :: rest => (first :: rest.take (batch_size - 1)) ::
      batch_generator (rest.drop (batch_size - 1)) batch_size
termination_by l.length
decreasing_by
  simp only [List.length_drop, List.length_cons]
  omega

/-! Embedding of the retry configuration and the backoff calculation of
`Scraper` (scraper.py).  All durations are modelled as rational numbers of
seconds.  The constants come from `Scraper.__init__` (lines 72-82):
`stop_after_waiting = 15 * 60`, `max_wait = 2.5 * 60`, `wait_base = 1.25`,
`max_extra_jitter = 0.05`.  The jitter values drawn by `random.uniform` are
modelled as injected inputs, constrained to the intervals the code draws
them from. -/

/-- Retry-relevant configuration of a `Scraper` (scraper.py lines 66-82). -/
structure RetryCfg where
  stop_after_waiting : ℚ
  max_wait : ℚ
  wait_base : ℚ
  max_extra_jitter : ℚ

/-- The default retry configuration from `Scraper.__init__`:
15-minute elapsed ceiling, 150-second wait cap, base 1.25, 0.05 s extra
jitter cap. -/
def defaultRetryCfg : RetryCfg :=
  { stop_after_waiting := 15 * 60
    max_wait := 5 / 2 * 60
    wait_base := 5 / 4
    max_extra_jitter := 1 / 20 }

/-- Embedding of the backoff computation performed in each retry arm of
`Scraper.get` (scraper.py lines 198-210) and `Scraper.get_doc`
(lines 129-141):

    wait = self.wait_base ** attempt / 2
    jitter = random.uniform(0, wait)
    wait += jitter
    wait = min(wait, self.max_wait)
    wait += random.uniform(0, self.max_extra_jitter)

The two `random.uniform` draws are passed in as `jitter` and `extra_jitter`. -/
def backoffWait (cfg : RetryCfg) (attempt : ℕ) (jitter extra_jitter : ℚ) : ℚ :=
  let wait := cfg.wait_base ^ attempt / 2
  let wait := wait + jitter
  let wait := min wait cfg.max_wait
  wait + extra_jitter

/-- Expected value of `backoffWait` over the two uniform draws, in the
regime where the `max_wait` cap is not hit.  In that regime `backoffWait` is
linear in the draws, so its expectation is its value at the midpoints
`jitter = raw / 2 = b^n / 4` and `extra_jitter = max_extra_jitter / 2`. -/
def expectedBackoff (cfg : RetryCfg) (attempt : ℕ) : ℚ :=
  backoffWait cfg attempt (cfg.wait_base ^ attempt / 4) (cfg.max_extra_jitter / 2)

/-! Embedding of `Scraper.get` (scraper.py lines 148-215) and
`Scraper.get_doc` (lines 112-146).

Exceptions are modelled by their Python type (`ExcKind`) plus the optional
HTTP status a `ClientResponseError` carries.  The outcome of each execution
of the body of the `try` block (one network attempt) is injected as a
`NetAttempt`: either a response with a status and payload, or a raised
exception.  Each attempt also carries the wall-clock duration the attempt
itself took (connection time, server time, ...); the code never reads this
duration, but the specification's description of the elapsed ceiling refers
to it, so the model records it. -/

/-- Python exception types relevant to the scraper. -/
inductive ExcKind where
  | timeoutError            -- asyncio.TimeoutError
  | clientConnectorError    -- aiohttp.ClientConnectorError
  | serverDisconnectedError -- aiohttp.client_exceptions.ServerDisconnectedError
  | clientOSError           -- aiohttp.client_exceptions.ClientOSError
  | clientPayloadError      -- aiohttp.client_exceptions.ClientPayloadError
  | clientResponseError     -- aiohttp.client_exceptions.ClientResponseError
  | parseError              -- oalc_creator.scraper.ParseError
  | typeError               -- builtins.TypeError
  | fileNotFoundError       -- builtins.FileNotFoundError
  | otherException (id : ℕ) -- any other exception type
deriving DecidableEq

/-- A raised Python exception: its type and, for a `ClientResponseError`,
the HTTP status it carries. -/
structure PyExc where
  kind : ExcKind
  status : Option ℕ := none
deriving DecidableEq

/-- The default `retry_exceptions` tuple of `Scraper.__init__`
(scraper.py lines 26-33).  Membership of a raised exception in the tuple
(`except self.retry_exceptions`) is modelled as membership of its type in
this list. -/
def defaultRetryExceptions : List ExcKind :=
  [.timeoutError, .clientConnectorError, .serverDisconnectedError,
   .clientOSError, .clientPayloadError, .clientResponseError]

/-- Full retry-relevant configuration of a `Scraper`: the numeric settings
plus the configured retryable exception types and retryable statuses
(scraper.py lines 66-70). -/
structure ScraperCfg extends RetryCfg where
  retry_exceptions : List ExcKind
  retry_statuses : List ℕ

/-- The configuration `Scraper.__init__` builds by default:
`retry_statuses = (429,)` and the six default retryable exception types. -/
def defaultScraperCfg : ScraperCfg :=
  { defaultRetryCfg with
    retry_exceptions := defaultRetryExceptions
    retry_statuses := [429] }

/-- A configuration a caller may construct: the default numeric settings
and default `retry_statuses`, but an empty `retry_exceptions` tuple
(`Scraper.__init__` accepts any tuple, scraper.py line 26). -/
def noRetryExcCfg : ScraperCfg :=
  { defaultRetryCfg with
    retry_exceptions := []
    retry_statuses := [429] }

/-- The request methods distinguished by `Scraper.get`
(`req.method == 'open'` versus a network method). -/
inductive ReqMethod where
  | openLocal -- `method == 'open'`: read a local file
  | network   -- any other method: issue a network request
deriving DecidableEq

/-- The parts of `oalc_creator.data.Request` that `Scraper.get` reads:
the method, the target path/url and the optional text-encoding override. -/
structure Request where
  method : ReqMethod
  path : String
  encoding : Option String
deriving DecidableEq

/-- The parts of `oalc_creator.data.Response` that `Scraper.get` constructs:
the payload bytes (abstracted to a type `α`), the encoding passed through
from the request, and the HTTP status (absent for local files).  The
`content_type` field is elided. -/
structure Response (α : Type) where
  payload : α
  encoding : Option String
  status : Option ℕ
deriving DecidableEq

/-- The outcome of executing the network part of one iteration of the `try`
block of `Scraper.get` (scraper.py line 174: `session.request(**req.args)`):
either a response arrived, with the given HTTP status and payload, or the
transport raised an exception.  `duration` is the wall-clock time the
attempt itself took; the code never reads it. -/
inductive NetAttempt (α : Type) where
  | response (duration : ℚ) (status : ℕ) (payload : α)
  | exc (duration : ℚ) (e : PyExc)
deriving DecidableEq

/-- Wall-clock duration of one network attempt (not read by the code). -/
def NetAttempt.duration {α : Type} : NetAttempt α → ℚ
  | .response d _ _ => d
  | .exc d _ => d

/-- Embedding of the body of the `try` block of `Scraper.get` (scraper.py
lines 172-190): if the response status is in `self.retry_statuses`, raise a
synthesized `aiohttp.client_exceptions.ClientResponseError` carrying that
status (lines 176-183); otherwise return the `Response`; a transport
exception propagates out of the body. -/
def tryBody {α : Type} (cfg : ScraperCfg) (encoding : Option String) :
    NetAttempt α → Except PyExc (Response α)
  | .response _ s p =>
      if s ∈ cfg.retry_statuses then .error ⟨.clientResponseError, some s⟩
      else .ok ⟨p, encoding, some s⟩
  | .exc _ e => .error e

/-- Result of running the retry loop of `Scraper.get` on a finite trace of
attempt outcomes: a returned response or a raised exception, together with
the list of backoff waits performed before it, or `exhausted` when the
supplied trace ended while the loop would have kept retrying. -/
inductive NetResult (α : Type) where
  | ok (r : Response α) (waits : List ℚ)
  | raised (e : PyExc) (waits : List ℚ)
  | exhausted
deriving DecidableEq

/-- Prepend a performed backoff wait to a loop result. -/
def NetResult.consWait {α : Type} (w : ℚ) : NetResult α → NetResult α
  | .ok r ws => .ok r (w :: ws)
  | .raised e ws => .raised e (w :: ws)
  | .exhausted => .exhausted

/-- The backoff waits recorded in a loop result. -/
def NetResult.waits {α : Type} : NetResult α → List ℚ
  | .ok _ ws => ws
  | .raised _ ws => ws
  | .exhausted => []

/-- Embedding of the network retry loop of `Scraper.get` (scraper.py lines
164-215).  `attempt` and `elapsed` carry the Python locals of the same
names: `attempt` counts retries and `elapsed` accumulates the backoff waits
performed so far (`elapsed += wait`, line 215 — the attempts' own durations
are never added).  On an exception whose type is in
`self.retry_exceptions`: re-raise if `elapsed > self.stop_after_waiting`,
else increment `attempt`, wait `backoffWait` seconds and retry.  Any other
exception propagates. -/
def getLoop {α : Type} (cfg : ScraperCfg) (encoding : Option String)
    (jitter extra : ℕ → ℚ) :
    List (NetAttempt α) → ℕ → ℚ → NetResult α
  | [], _, _ => .exhausted
  | ev :: rest, attempt, elapsed =>
      match tryBody cfg encoding ev with
      | .ok r => .ok r []
      | .error e =>
          if e.kind ∈ cfg.retry_exceptions then
            if elapsed > cfg.stop_after_waiting then .raised e []
            else
              let w := backoffWait cfg.toRetryCfg (attempt + 1)
                (jitter (attempt + 1)) (extra (attempt + 1))
              (getLoop cfg encoding jitter extra rest (attempt + 1) (elapsed + w)).consWait w
          else .raised e []

/-- Embedding of the `open` branch of `Scraper.get` (scraper.py lines
156-162):

    with open(req.path, 'rb') as reader:
        return Response(await reader.read(), encoding=req.encoding)

`open` raises `FileNotFoundError` when the path does not exist.  Otherwise
`reader.read()` returns a `bytes` object, and Python's `await` applied to a
non-awaitable `bytes` raises `TypeError`, so for an existing file this
branch raises `TypeError` before constructing any `Response`. -/
def openBranch {α : Type} (fs : String → Option α) (req : Request) :
    Except PyExc (Response α) :=
  match fs req.path with
  | none => .error ⟨.fileNotFoundError, none⟩
  | some _ => .error ⟨.typeError, none⟩

/-- Modelled from the spec: §4.3 step 1, "If `request.method == open`, read
the local resource directly and return a response with the requested text
encoding; no retry, no gate."  This is what the `open` branch of
`Scraper.get` was evidently intended to do (its stray `await` aside). -/
def openBranchSpec {α : Type} (fs : String → Option α) (req : Request) :
    Except PyExc (Response α) :=
  match fs req.path with
  | none => .error ⟨.fileNotFoundError, none⟩
  | some bytes => .ok ⟨bytes, req.encoding, none⟩

/-- A full run of `Scraper.get`: the result plus the number of concurrency
gate acquisitions (`async with self.semaphore`, line 172, one per loop
iteration) and the number of network requests issued (line 174, one per
loop iteration). -/
structure GetRun (α : Type) where
  result : NetResult α
  gateAcquires : ℕ
  netRequests : ℕ
deriving DecidableEq

/-- Number of loop iterations a `getLoop` run performed on the given trace:
one per recorded wait plus the final one, or the whole trace when the loop
exhausted it. -/
def iterationsOf {α : Type} (res : NetResult α) (trace : List (NetAttempt α)) : ℕ :=
  match res with
  | .ok _ ws => ws.length + 1
  | .raised _ ws => ws.length + 1
  | .exhausted => trace.length

/-- Embedding of `Scraper.get` (scraper.py lines 148-215): dispatch on the
request method (the `open` branch precedes the semaphore and the retry
loop), then run the network retry loop from `attempt = 0`, `elapsed = 0`. -/
def get {α : Type} (cfg : ScraperCfg) (fs : String → Option α)
    (jitter extra : ℕ → ℚ) (req : Request) (trace : List (NetAttempt α)) :
    GetRun α :=
  match req.method with
  | .openLocal =>
      { result := match openBranch fs req with
          | .ok r => .ok r []
          | .error e => .raised e []
        gateAcquires := 0
        netRequests := 0 }
  | .network =>
      let res := getLoop cfg req.encoding jitter extra trace 0 0
      { result := res
        gateAcquires := iterationsOf res trace
        netRequests := iterationsOf res trace }

/-- The outcome of one invocation of the source-supplied `_get_doc`:
a returned document (or `None`), or a raised exception. -/
inductive DocAttempt (δ : Type) where
  | ret (d : Option δ)
  | raise (e : PyExc)
deriving DecidableEq

/-- Result of `Scraper.get_doc` on a finite trace of `_get_doc` outcomes. -/
inductive DocResult (δ : Type) where
  | ok (d : Option δ) (waits : List ℚ)
  | raised (e : PyExc) (waits : List ℚ)
  | exhausted
deriving DecidableEq

/-- Prepend a performed backoff wait to a document-loop result. -/
def DocResult.consWait {δ : Type} (w : ℚ) : DocResult δ → DocResult δ
  | .ok d ws => .ok d (w :: ws)
  | .raised e ws => .raised e (w :: ws)
  | .exhausted => .exhausted

/-- Embedding of the retry loop of `Scraper.get_doc` (scraper.py lines
112-146): invoke `_get_doc`; on a raised `ParseError`, re-raise it if
`elapsed > self.stop_after_waiting`, otherwise perform one backoff wait and
re-invoke; any other exception propagates.  `elapsed` accumulates the
backoff waits, exactly as in `Scraper.get`. -/
def getDocLoop {δ : Type} (cfg : ScraperCfg) (jitter extra : ℕ → ℚ) :
    List (DocAttempt δ) → ℕ → ℚ → DocResult δ
  | [], _, _ => .exhausted
  | .ret d :: _, _, _ => .ok d []
  | .raise e :: rest, attempt, elapsed =>
      if e.kind = .parseError then
        if elapsed > cfg.stop_after_waiting then .raised e []
        else
          let w := backoffWait cfg.toRetryCfg (attempt + 1)
            (jitter (attempt + 1)) (extra (attempt + 1))
          (getDocLoop cfg jitter extra rest (attempt + 1) (elapsed + w)).consWait w
      else .raised e []

/-- Embedding of `Scraper.get_doc` (scraper.py lines 112-146): the retry
loop started from its own fresh `attempt = 0`, `elapsed = 0` (lines
116-117), independent of any counters of `Scraper.get`. -/
def get_doc {δ : Type} (cfg : ScraperCfg) (jitter extra : ℕ → ℚ)
    (trace : List (DocAttempt δ)) : DocResult δ :=
  getDocLoop cfg jitter extra trace 0 0

/-- A one-file local filesystem fixture: `fixture.bin` holds the two bytes
`[7, 7]`. -/
def fixtureFs : String → Option (List ℕ) :=
  fun p => if p = "fixture.bin" then some [7, 7] else none

/-- A `Request` with method `open` pointing at the fixture file, with a text
encoding override. -/
def fixtureOpenReq : Request :=
  ⟨.openLocal, "fixture.bin", some "utf-8"⟩

/-! Model of the session handling of one network attempt of `Scraper.get`
(scraper.py lines 170-173):

    async with self.semaphore, (nullcontext() if self.session and not
        self.session.closed else aiohttp.ClientSession()) as session:
        session = session or self.session

The caller-supplied session (`self.session`) is modelled as
`Option Bool` — `none` when no session was supplied, `some closed`
otherwise.  The `async with` exit of the chosen context manager runs on
every path out of the block, normal return and raised exception alike. -/

/-- The context manager `Scraper.get` binds for one network attempt:
`nullcontext()` when `self.session` exists and is not closed, else a fresh
`aiohttp.ClientSession()`. -/
inductive SessCtx where
  | nullctx -- contextlib.nullcontext(): enter yields None, exit is a no-op
  | fresh   -- aiohttp.ClientSession(): exit closes the session it created
deriving DecidableEq

/-- The condition `self.session and not self.session.closed` selecting the
context manager. -/
def chooseCtx (caller : Option Bool) : SessCtx :=
  if caller = some false then .nullctx else .fresh

/-- Which session object performs the request, after
`session = session or self.session`: under `nullcontext` the enter yields
`None` and the caller-supplied session is used; otherwise the fresh one. -/
inductive SessUsed where
  | caller | engine
deriving DecidableEq

/-- The session the attempt uses. -/
def sessionUsed : SessCtx → SessUsed
  | .nullctx => .caller
  | .fresh => .engine

/-- Whether the context-manager exit closes the session object it manages,
given whether the guarded block raised: `nullcontext.__aexit__` does
nothing on either path; `ClientSession.__aexit__` closes the fresh session
on either path. -/
def ctxExitCloses : SessCtx → Bool → Bool
  | .nullctx, _ => false
  | .fresh, _ => true

/-- The caller session's closed flag after one attempt: no branch of
`Scraper.get` ever calls `close` on `self.session` — the `nullcontext` exit
does nothing, and the `ClientSession()` exit closes only the fresh session
it itself created. -/
def callerClosedAfter (caller : Option Bool) (raised : Bool) : Option Bool :=
  match chooseCtx caller, raised with
  | .nullctx, _ => caller
  | .fresh, _ => caller

/-! Model of taken-gate usage for the semaphore-stealing scrapers.

`HighCourtOfAustralia.__init__` (high_court_of_australia.py lines 50-53)
and `FederalRegisterOfLegislation.__init__`
(federal_register_of_legislation.py lines 49-52) run

    self._semaphore = self.semaphore
    self.semaphore = nullcontext()

after which the base-class `Scraper.get` acquires only the no-op
`nullcontext`, so the only acquisitions of the taken gate are the explicit
`async with self._semaphore` blocks in those two files.  Each composite
method is abstracted to its sequence of taken-gate acquire/release events
and issued network requests, read off the method bodies. -/

/-- One event in a method's taken-gate usage trace. -/
inductive GateOp where
  | acquire -- enter `async with self._semaphore`
  | release -- leave it
  | request -- issue one network request (a `self.get`/`super().get` call)
deriving DecidableEq

/-- Whether every `request` in the trace occurs at positive acquire/release
nesting depth of the taken gate, starting from depth `d`. -/
def requestsGuardedFrom : ℕ → List GateOp → Bool
  | _, [] => true
  | d, .acquire :: rest => requestsGuardedFrom (d + 1) rest
  | d, .release :: rest => requestsGuardedFrom (d - 1) rest
  | d, .request :: rest => decide (0 < d) && requestsGuardedFrom d rest

/-- Whether every network request of the trace is made while holding the
taken gate. -/
def requestsGuarded (ops : List GateOp) : Bool :=
  requestsGuardedFrom 0 ops

/-- `FederalRegisterOfLegislation.get_index_reqs`
(federal_register_of_legislation.py lines 87-130): the whole body,
including its one SERP request, sits inside `async with self._semaphore`. -/
def frlGetIndexReqsOps : List GateOp := [.acquire, .request, .release]

/-- `FederalRegisterOfLegislation.get_index` (lines 133-155): the one index
request sits inside `async with self._semaphore`. -/
def frlGetIndexOps : List GateOp := [.acquire, .request, .release]

/-- `FederalRegisterOfLegislation._get_doc` (lines 197-344): the status-page
request and however many constituent-part requests follow (`n` of them) all
sit inside `async with self._semaphore`. -/
def frlGetDocOps (n : ℕ) : List GateOp :=
  .acquire :: .request :: (List.replicate n .request ++ [.release])

/-- `HighCourtOfAustralia._get_index_reqs_from_base_serp`
(high_court_of_australia.py lines 94-104): one request with no
`async with self._semaphore` anywhere in the body. -/
def hcaIndexReqsFromBaseSerpOps : List GateOp := [.request]

/-- `HighCourtOfAustralia.get_index` (lines 107-123): one request with no
`async with self._semaphore` anywhere in the body. -/
def hcaGetIndexOps : List GateOp := [.request]

/-- `HighCourtOfAustralia._get_doc` (lines 126-228): the document request
and, when a download button is found, the download request, all inside
`async with self._semaphore`. -/
def hcaGetDocOps (download : Bool) : List GateOp :=
  .acquire :: .request :: ((if download then [.request] else []) ++ [.release])

/-! Embedding of the two cited `get_index` implementations.  The network
fetch performed at the top of each method is out of scope here: its parsed
payload is the injected input. -/

/-- The fields of `oalc_creator.data.Entry` that the index stages
construct. -/
structure Entry where
  request_path : String
  version_id : String
  source : String
  type : Option String
  jurisdiction : String
  date : Option String
  title : String
deriving DecidableEq

/-- Errors raised by the index stages. -/
inductive ScrapeError where
  | noEntries -- `Exception(f'No entries were found for the request: ...')`
  | keyError  -- a missing dictionary key
deriving DecidableEq

/-- One element of `resp.json['value']` as read by
`FederalRegisterOfLegislation.get_index` (lines 143-155): `entry['id']`,
`entry['collection']`, `entry['name']`, and the
`entry['searchContexts']['fullTextVersion']` fields `registerId` and
`start`. -/
structure FrlRawEntry where
  id : String
  collection : String
  name : String
  registerId : String
  start : String
deriving DecidableEq

/-- The `_collections` map of `FederalRegisterOfLegislation.__init__`
(lines 76-84): database collection name to document type and jurisdiction.
A lookup of any other key raises `KeyError`. -/
def frlCollections : String → Option (Option String × String)
  | "Constitution" => some (some "primary_legislation", "commonwealth")
  | "Act" => some (some "primary_legislation", "commonwealth")
  | "LegislativeInstrument" => some (some "secondary_legislation", "commonwealth")
  | "NotifiableInstrument" => some (some "secondary_legislation", "commonwealth")
  | "AdministrativeArrangementsOrder" => some (some "secondary_legislation", "commonwealth")
  | "PrerogativeInstrument" => some (some "secondary_legislation", "commonwealth")
  | "ContinuedLaw" => some (none, "norfolk_island")
  | _ => none

/-- The `Entry(...)` construction inside the set comprehension of
`FederalRegisterOfLegislation.get_index` (lines 143-155). -/
def frlMkEntry (entry : FrlRawEntry) : Except ScrapeError Entry :=
  match frlCollections entry.collection with
  | none => .error .keyError
  | some (ty, jur) =>
      .ok { request_path := "https://www.legislation.gov.au/" ++ entry.id
            version_id := entry.registerId
            source := "federal_register_of_legislation"
            type := ty
            jurisdiction := jur
            date := some (entry.start.take 10)
            title := entry.name }

/-- Embedding of `FederalRegisterOfLegislation.get_index` (lines 133-155)
after its fetch: raise if `len(resp.json['value']) == 0`, otherwise build
one entry per element (the set's deduplication is elided: a list is
returned). -/
def frl_get_index (value : List FrlRawEntry) : Except ScrapeError (List Entry) :=
  if value.length = 0 then .error .noEntries
  else value.mapM frlMkEntry

/-- Whether `pat` is an initial segment of `s`. -/
def hasPre : List Char → List Char → Bool
  | [], _ => true
  | _ :: _, [] => false
  | p :: ps, c :: cs => (p = c) && hasPre ps cs

/-- Split `s` at the first occurrence of `pat`: the part before it and the
part after it. -/
def splitAtSub (pat : List Char) : List Char → Option (List Char × List Char)
  | [] => if hasPre pat [] then some ([], []) else none
  | c :: rest =>
      if hasPre pat (c :: rest) then some ([], (c :: rest).drop pat.length)
      else (splitAtSub pat rest).map (fun p => (c :: p.1, p.2))

/-- Fuelled extraction of all (non-overlapping, leftmost, shortest)
`<tr>...</tr>` captures, the matches of the Python regex
`<tr>((?:.|\n)*?)</tr>` used by `WesternAustralianLegislation.get_index`
(line 78). -/
def extractTrRowsFuel : ℕ → List Char → List (List Char)
  | 0, _ => []
  | fuel + 1, s =>
      match splitAtSub ['<', 't', 'r', '>'] s with
      | none => []
      | some (_, afterOpen) =>
          match splitAtSub ['<', '/', 't', 'r', '>'] afterOpen with
          | none => []
          | some (row, afterClose) => row :: extractTrRowsFuel fuel afterClose

/-- All `<tr>...</tr>` captures of a page (each iteration of the fuelled
recursion consumes at least one character, so `s.length` fuel suffices). -/
def extractTrRows (s : List Char) : List (List Char) :=
  extractTrRowsFuel s.length s

/-- Embedding of `WesternAustralianLegislation.get_index` (lines 70-81)
after its fetch: extract all table rows barring the first (the header) and
build one entry per row via `_get_entry` (injected as `getEntry`; an
exception it raises propagates).  There is no emptiness check: zero
remaining rows give `ok []`.  (The document-type computation from the
request path and the set's deduplication are elided.) -/
def wa_get_index (getEntry : List Char → Except ScrapeError Entry)
    (resp : List Char) : Except ScrapeError (List Entry) :=
  ((extractTrRows resp).drop 1).mapM getEntry

/-- A Western Australian Legislation index page carrying only the header
row. -/
def waHeaderOnlyPage : List Char :=
  "<table><tr><th>Title</th></tr></table>".toList

/-- A concrete raw index element of the Federal Register of Legislation. -/
def frlDemoRawEntry : FrlRawEntry :=
  { id := "C2004A03898"
    collection := "Act"
    name := "A Demonstration Act 1901"
    registerId := "C2004A03898"
    start := "2004-01-01T00:00:00+10:00" }

/-! Embedding of `helpers.clean_text` (helpers.py lines 103-135) and the
regexes it uses (lines 18-20).  Text is a `List Char`. -/

/-- The characters Python's `\s` matches in a `str` pattern (the regex
module's Unicode whitespace set): `\t\n\v\f\r`, the file/group/record/unit
separators 0x1C-0x1F, space, NEL 0x85, NBSP 0xA0, and the other Unicode
`White_Space` code points. -/
def pySpace (c : Char) : Bool :=
  c.toNat ∈ [9, 10, 11, 12, 13, 28, 29, 30, 31, 32, 133, 160, 0x1680,
    0x2000, 0x2001, 0x2002, 0x2003, 0x2004, 0x2005, 0x2006, 0x2007, 0x2008,
    0x2009, 0x200A, 0x2028, 0x2029, 0x202F, 0x205F, 0x3000]

/-- The character class of `NON_STANDARD_CONTROL_CHARS_RE`
(helpers.py line 18): `\a\b\f\r\v`. -/
def nonStdCC (c : Char) : Bool :=
  c.toNat ∈ [7, 8, 12, 13, 11]

/-- The non-breaking space. -/
def nbsp : Char := Char.ofNat 160

/-- `text.split('\n')`: split into lines at every newline (Python's
`str.split`, which keeps empty pieces and returns `['']` for `''`). -/
def splitNl : List Char → List (List Char)
  | [] => [[]]
  | c :: rest =>
      if c = '\n' then [] :: splitNl rest
      else
        match splitNl rest with
        | [] => [[c]]
        | l :: ls => (c :: l) :: ls

/-- `'\n'.join(lines)`. -/
def joinNl : List (List Char) → List Char
  | [] => []
  | [l] => l
  | l :: ls => l ++ '\n' :: joinNl ls

/-- `re.sub(r'\s+$', '', line)`: remove the maximal trailing whitespace run
of a line. -/
def rstrip (l : List Char) : List Char :=
  (l.reverse.dropWhile pySpace).reverse

/-- Line 127 of helpers.py:
`'\n'.join([re.sub(r'\s+$', '', line) for line in text.split('\n')])`. -/
def stripLineEnds (t : List Char) : List Char :=
  joinNl ((splitNl t).map rstrip)

/-- `START_OF_TEXT_THAT_IS_ONLY_WHITESPACE_FOLLOWED_BY_A_NEWLINE_RE.sub('', text)`
for the regex `^\s*\n` (helpers.py lines 19, 130).  The regex matches iff
the maximal leading whitespace run of the text contains a newline, and the
greedy, backtracking match is exactly that run up through its last newline;
the substitution removes it.  Below, `takeWhile pySpace t` is the leading
whitespace run and the `reverse.dropWhile` computes the length of the run
up through its last newline (0 when it has none). -/
def stripStart (t : List Char) : List Char :=
  t.drop ((t.takeWhile pySpace).reverse.dropWhile (fun c => c != '\n')).length

/-- `END_OF_TEXT_THAT_IS_ONLY_WHITESPACE_PRECEDED_BY_A_NEWLINE_RE.sub('', text)`
for the regex `\n\s*$` (helpers.py lines 20, 133).  The regex matches iff
the maximal trailing whitespace run of the text contains a newline, and the
leftmost match runs from the first newline of that run to the end of the
text; the substitution removes it.  That is the mirror image of
`stripStart`. -/
def stripEnd (t : List Char) : List Char :=
  (stripStart t.reverse).reverse

/-- Embedding of `helpers.clean_text` (lines 103-135).  `fixText` stands
for the external `ftfy.fix_text` collaborator, applied only when
`fix_encoding` is true. -/
def clean_text (fixText : List Char → List Char) (text : List Char)
    (fix_encoding normalise_nbsp remove_non_standard_ccs
      remove_unnecessary_whitespace : Bool) : List Char :=
  let text := if fix_encoding then fixText text else text
  let text := if normalise_nbsp then
      text.map (fun c => if c = nbsp then ' ' else c)
    else text
  let text := if remove_non_standard_ccs then
      text.filter (fun c => !nonStdCC c)
    else text
  let text := if remove_unnecessary_whitespace then
      stripEnd (stripStart (stripLineEnds text))
    else text
  text

/-! End of the definitions for the engine model; theorems follow.
Further definitions (session handling, gate-usage traces, index
parsing, text cleaning) are introduced in later sections before the
theorems that use them. -/

theorem batch_generator_nil {α : Type} (n : Nat) : batch_generator ([] : List α) n = [] := by
  simp [batch_generator]

theorem batch_generator_cons {α : Type} (x : α) (xs : List α) (n : Nat) :
    batch_generator (x :: xs) n =
      (x :: xs.take (n - 1)) :: batch_generator (xs.drop (n - 1)) n := by
  rw [batch_generator]

theorem batch_generator_join {α : Type} (l : List α) (n : Nat) :
    (batch_generator l n).flatten = l := by
  induction l, n using batch_generator.induct with
  | case1 n => rw [batch_generator_nil]; rfl
  | case2 n x xs ih =>
      rw [batch_generator_cons, List.flatten_cons, ih]
      simp [List.take_append_drop]

theorem batch_generator_ne_nil {α : Type} (l : List α) (n : Nat) :
    ∀ b ∈ batch_generator l n, b ≠ [] := by
  induction l, n using batch_generator.induct with
  | case1 n =>
      intro b hb
      rw [batch_generator_nil] at hb
      exact absurd hb (List.not_mem_nil b)
  | case2 n x xs ih =>
      intro b hb
      rw [batch_generator_cons] at hb
      cases List.mem_cons.mp hb with
      | inl h => subst h; simp
      | inr h => exact ih b h

theorem batch_generator_len_le {α : Type} (l : List α) (n : Nat) (hn : 1 ≤ n) :
    ∀ b ∈ batch_generator l n, b.length ≤ n := by
  induction l, n using batch_generator.induct with
  | case1 n =>
      intro b hb
      rw [batch_generator_nil] at hb
      exact absurd hb (List.not_mem_nil b)
  | case2 n x xs ih =>
      intro b hb
      rw [batch_generator_cons] at hb
      cases List.mem_cons.mp hb with
      | inl h =>
          subst h
          simp only [List.length_cons, List.length_take]
          omega
      | inr h => exact ih hn b h

theorem batch_generator_full {α : Type} (l : List α) (n : Nat) (hn : 1 ≤ n) :
    ∀ b ∈ (batch_generator l n).dropLast, b.length = n := by
  induction l, n using batch_generator.induct with
  | case1 n =>
      intro b hb
      rw [batch_generator_nil] at hb
      exact absurd hb (List.not_mem_nil b)
  | case2 n x xs ih =>
      intro b hb
      rw [batch_generator_cons] at hb
      by_cases hrest : batch_generator (xs.drop (n - 1)) n = []
      · rw [hrest] at hb
        simp at hb
      · rw [List.dropLast_cons_of_ne_nil hrest] at hb
        cases List.mem_cons.mp hb with
        | inl h =>
            subst h
            -- the remainder is non-empty, so `xs` had at least `n - 1` elements
            have hxs : n - 1 < xs.length := by
              by_contra hlen
              push_neg at hlen
              have hdrop : xs.drop (n - 1) = [] := List.drop_eq_nil_of_le hlen
              rw [hdrop] at hrest
              exact hrest (batch_generator_nil n)
            simp only [List.length_cons, List.length_take]
            omega
        | inr h => exact ih hn b h

/-- C9: for every finite input list and every `batch_size ≥ 1`,
`batch_generator` yields a partition of the input: the concatenation of the
yielded batches equals the input, every batch is non-empty with at most
`batch_size` elements, every batch except possibly the last has exactly
`batch_size` elements, and an empty input yields no batches. -/
theorem claim_C9_batch_generator_partition {α : Type} (l : List α) (n : Nat) (hn : 1 ≤ n) :
    (batch_generator l n).flatten = l ∧
    (∀ b ∈ batch_generator l n, b ≠ [] ∧ b.length ≤ n) ∧
    (∀ b ∈ (batch_generator l n).dropLast, b.length = n) ∧
    batch_generator ([] : List α) n = [] := by
  refine ⟨batch_generator_join l n, ?_, batch_generator_full l n hn, batch_generator_nil n⟩
  intro b hb
  exact ⟨batch_generator_ne_nil l n b hb, batch_generator_len_le l n hn b hb⟩

theorem getLoop_nil {α : Type} (cfg : ScraperCfg) (enc : Option String)
    (j e : ℕ → ℚ) (a : ℕ) (el : ℚ) :
    getLoop (α := α) cfg enc j e [] a el = .exhausted := by
  simp [getLoop]

theorem getLoop_cons_ok {α : Type} (cfg : ScraperCfg) (enc : Option String)
    (j e : ℕ → ℚ) (ev : NetAttempt α) (rest : List (NetAttempt α)) (a : ℕ) (el : ℚ)
    (r : Response α) (htb : tryBody cfg enc ev = .ok r) :
    getLoop cfg enc j e (ev :: rest) a el = .ok r [] := by
  simp only [getLoop, htb]

theorem getLoop_cons_fatal {α : Type} (cfg : ScraperCfg) (enc : Option String)
    (j e : ℕ → ℚ) (ev : NetAttempt α) (rest : List (NetAttempt α)) (a : ℕ) (el : ℚ)
    (exc : PyExc) (htb : tryBody cfg enc ev = .error exc)
    (hk : exc.kind ∉ cfg.retry_exceptions) :
    getLoop cfg enc j e (ev :: rest) a el = .raised exc [] := by
  simp only [getLoop, htb, if_neg hk]

theorem getLoop_cons_ceiling {α : Type} (cfg : ScraperCfg) (enc : Option String)
    (j e : ℕ → ℚ) (ev : NetAttempt α) (rest : List (NetAttempt α)) (a : ℕ) (el : ℚ)
    (exc : PyExc) (htb : tryBody cfg enc ev = .error exc)
    (hk : exc.kind ∈ cfg.retry_exceptions) (hel : el > cfg.stop_after_waiting) :
    getLoop cfg enc j e (ev :: rest) a el = .raised exc [] := by
  simp only [getLoop, htb, if_pos hk, if_pos hel]

theorem getLoop_cons_retry {α : Type} (cfg : ScraperCfg) (enc : Option String)
    (j e : ℕ → ℚ) (ev : NetAttempt α) (rest : List (NetAttempt α)) (a : ℕ) (el : ℚ)
    (exc : PyExc) (htb : tryBody cfg enc ev = .error exc)
    (hk : exc.kind ∈ cfg.retry_exceptions) (hel : ¬el > cfg.stop_after_waiting) :
    getLoop cfg enc j e (ev :: rest) a el =
      (getLoop cfg enc j e rest (a + 1)
          (el + backoffWait cfg.toRetryCfg (a + 1) (j (a + 1)) (e (a + 1)))).consWait
        (backoffWait cfg.toRetryCfg (a + 1) (j (a + 1)) (e (a + 1))) := by
  simp only [getLoop, htb, if_pos hk, if_neg hel]

/-- A retryable exception is re-raised by the loop of `Scraper.get` only
when the backoff waits performed so far (plus the starting `elapsed`) sum
above the configured ceiling. -/
theorem getLoop_raised_retryable_sum {α : Type} (cfg : ScraperCfg) (enc : Option String)
    (j e : ℕ → ℚ) :
    ∀ (trace : List (NetAttempt α)) (a : ℕ) (el : ℚ) (exc : PyExc) (ws : List ℚ),
      getLoop cfg enc j e trace a el = .raised exc ws →
      exc.kind ∈ cfg.retry_exceptions →
      el + ws.sum > cfg.stop_after_waiting := by
  intro trace
  induction trace with
  | nil =>
      intro a el exc ws h _
      rw [getLoop_nil] at h
      exact absurd h (by simp)
  | cons ev rest ih =>
      intro a el exc ws h hmem
      cases htb : tryBody cfg enc ev with
      | ok r =>
          rw [getLoop_cons_ok cfg enc j e ev rest a el r htb] at h
          exact absurd h (by simp)
      | error exc' =>
          by_cases hk : exc'.kind ∈ cfg.retry_exceptions
          · by_cases hel : el > cfg.stop_after_waiting
            · rw [getLoop_cons_ceiling cfg enc j e ev rest a el exc' htb hk hel] at h
              injection h with h1 h2
              subst h1; subst h2
              simpa using hel
            · rw [getLoop_cons_retry cfg enc j e ev rest a el exc' htb hk hel] at h
              set w := backoffWait cfg.toRetryCfg (a + 1) (j (a + 1)) (e (a + 1)) with hw
              cases hr : getLoop cfg enc j e rest (a + 1) (el + w) with
              | ok r' ws' => rw [hr] at h; exact absurd h (by simp [NetResult.consWait])
              | exhausted => rw [hr] at h; exact absurd h (by simp [NetResult.consWait])
              | raised exc'' ws' =>
                  rw [hr] at h
                  simp only [NetResult.consWait] at h
                  injection h with h1 h2
                  have hih := ih (a + 1) (el + w) exc'' ws' hr
                    (by rw [h1]; exact hmem)
                  rw [← h2, List.sum_cons]
                  linarith
          · rw [getLoop_cons_fatal cfg enc j e ev rest a el exc' htb hk] at h
            injection h with h1 h2
            subst h1
            exact absurd hmem hk

/-- Any response the loop of `Scraper.get` returns has a status outside the
configured retryable-status set. -/
theorem getLoop_ok_status {α : Type} (cfg : ScraperCfg) (enc : Option String)
    (j e : ℕ → ℚ) :
    ∀ (trace : List (NetAttempt α)) (a : ℕ) (el : ℚ) (r : Response α) (ws : List ℚ)
      (s : ℕ),
      getLoop cfg enc j e trace a el = .ok r ws →
      r.status = some s →
      s ∉ cfg.retry_statuses := by
  intro trace
  induction trace with
  | nil =>
      intro a el r ws s h _
      rw [getLoop_nil] at h
      exact absurd h (by simp)
  | cons ev rest ih =>
      intro a el r ws s h hs
      cases htb : tryBody cfg enc ev with
      | ok r' =>
          rw [getLoop_cons_ok cfg enc j e ev rest a el r' htb] at h
          injection h with h1 h2
          subst h1
          cases ev with
          | response d st p =>
              by_cases hst : st ∈ cfg.retry_statuses
              · simp [tryBody, if_pos hst] at htb
              · simp only [tryBody, if_neg hst] at htb
                injection htb with hr
                rw [← hr] at hs
                simp only at hs
                injection hs with hs'
                rw [← hs']
                exact hst
          | exc d e' => simp [tryBody] at htb
      | error exc' =>
          by_cases hk : exc'.kind ∈ cfg.retry_exceptions
          · by_cases hel : el > cfg.stop_after_waiting
            · rw [getLoop_cons_ceiling cfg enc j e ev rest a el exc' htb hk hel] at h
              exact absurd h (by simp)
            · rw [getLoop_cons_retry cfg enc j e ev rest a el exc' htb hk hel] at h
              set w := backoffWait cfg.toRetryCfg (a + 1) (j (a + 1)) (e (a + 1)) with hw
              cases hr : getLoop cfg enc j e rest (a + 1) (el + w) with
              | ok r' ws' =>
                  rw [hr] at h
                  simp only [NetResult.consWait] at h
                  injection h with h1 h2
                  exact ih (a + 1) (el + w) r' ws' s hr (by rw [h1]; exact hs)
              | raised exc'' ws' => rw [hr] at h; exact absurd h (by simp [NetResult.consWait])
              | exhausted => rw [hr] at h; exact absurd h (by simp [NetResult.consWait])
          · rw [getLoop_cons_fatal cfg enc j e ev rest a el exc' htb hk] at h
            exact absurd h (by simp)

theorem getDocLoop_cons_ret {δ : Type} (cfg : ScraperCfg) (j e : ℕ → ℚ)
    (d : Option δ) (rest : List (DocAttempt δ)) (a : ℕ) (el : ℚ) :
    getDocLoop cfg j e (.ret d :: rest) a el = .ok d [] := by
  simp [getDocLoop]

theorem getDocLoop_cons_other {δ : Type} (cfg : ScraperCfg) (j e : ℕ → ℚ)
    (exc : PyExc) (rest : List (DocAttempt δ)) (a : ℕ) (el : ℚ)
    (hk : exc.kind ≠ .parseError) :
    getDocLoop cfg j e (.raise exc :: rest) a el = .raised exc [] := by
  simp only [getDocLoop, if_neg hk]

theorem getDocLoop_cons_ceiling {δ : Type} (cfg : ScraperCfg) (j e : ℕ → ℚ)
    (exc : PyExc) (rest : List (DocAttempt δ)) (a : ℕ) (el : ℚ)
    (hk : exc.kind = .parseError) (hel : el > cfg.stop_after_waiting) :
    getDocLoop cfg j e (.raise exc :: rest) a el = .raised exc [] := by
  simp only [getDocLoop, if_pos hk, if_pos hel]

theorem getDocLoop_cons_retry {δ : Type} (cfg : ScraperCfg) (j e : ℕ → ℚ)
    (exc : PyExc) (rest : List (DocAttempt δ)) (a : ℕ) (el : ℚ)
    (hk : exc.kind = .parseError) (hel : ¬el > cfg.stop_after_waiting) :
    getDocLoop cfg j e (.raise exc :: rest) a el =
      (getDocLoop cfg j e rest (a + 1)
          (el + backoffWait cfg.toRetryCfg (a + 1) (j (a + 1)) (e (a + 1)))).consWait
        (backoffWait cfg.toRetryCfg (a + 1) (j (a + 1)) (e (a + 1))) := by
  simp only [getDocLoop, if_pos hk, if_neg hel]

/-- A `ParseError` is re-raised by `Scraper.get_doc` only when the backoff
waits performed so far (plus the starting `elapsed`) sum above the
configured ceiling. -/
theorem getDocLoop_raised_parse_sum {δ : Type} (cfg : ScraperCfg) (j e : ℕ → ℚ) :
    ∀ (trace : List (DocAttempt δ)) (a : ℕ) (el : ℚ) (exc : PyExc) (ws : List ℚ),
      getDocLoop cfg j e trace a el = .raised exc ws →
      exc.kind = .parseError →
      el + ws.sum > cfg.stop_after_waiting := by
  intro trace
  induction trace with
  | nil =>
      intro a el exc ws h _
      exact absurd h (by simp [getDocLoop])
  | cons ev rest ih =>
      intro a el exc ws h hpe
      cases ev with
      | ret d =>
          rw [getDocLoop_cons_ret] at h
          exact absurd h (by simp)
      | raise exc' =>
          by_cases hk : exc'.kind = .parseError
          · by_cases hel : el > cfg.stop_after_waiting
            · rw [getDocLoop_cons_ceiling cfg j e exc' rest a el hk hel] at h
              injection h with h1 h2
              subst h2
              simpa using hel
            · rw [getDocLoop_cons_retry cfg j e exc' rest a el hk hel] at h
              set w := backoffWait cfg.toRetryCfg (a + 1) (j (a + 1)) (e (a + 1)) with hw
              cases hr : getDocLoop cfg j e rest (a + 1) (el + w) with
              | ok d' ws' => rw [hr] at h; exact absurd h (by simp [DocResult.consWait])
              | exhausted => rw [hr] at h; exact absurd h (by simp [DocResult.consWait])
              | raised exc'' ws' =>
                  rw [hr] at h
                  simp only [DocResult.consWait] at h
                  injection h with h1 h2
                  have hih := ih (a + 1) (el + w) exc'' ws' hr
                    (by rw [h1]; exact hpe)
                  rw [← h2, List.sum_cons]
                  linarith
          · rw [getDocLoop_cons_other cfg j e exc' rest a el hk] at h
            injection h with h1 h2
            rw [← h1] at hpe
            exact absurd hpe hk

/-- C1 (amended): in the transport retry loop of `get`, a retryable failure
is re-raised to the caller exactly when `elapsed` exceeds the configured
ceiling (default 15 minutes = 900 seconds) — with `elapsed` above the
ceiling the failure is re-raised at once, and with `elapsed` at or below
the ceiling the engine instead performs one backoff wait and retries —
where `elapsed` is the sum of the backoff waits performed so far, not the
wall-clock time since the first attempt. -/
theorem claim_C1_elapsed_ceiling {α : Type} (cfg : ScraperCfg)
    (enc : Option String) (j e : ℕ → ℚ) :
    -- a retryable failure is re-raised only once the performed backoff
    -- waits sum above the ceiling
    (∀ (trace : List (NetAttempt α)) (exc : PyExc) (ws : List ℚ),
        getLoop cfg enc j e trace 0 0 = .raised exc ws →
        exc.kind ∈ cfg.retry_exceptions →
        ws.sum > cfg.stop_after_waiting) ∧
    -- a retryable failure with `elapsed` at or below the ceiling causes
    -- exactly one backoff wait and a retry
    (∀ (ev : NetAttempt α) (rest : List (NetAttempt α)) (a : ℕ) (el : ℚ)
        (exc : PyExc),
        tryBody cfg enc ev = .error exc →
        exc.kind ∈ cfg.retry_exceptions →
        el ≤ cfg.stop_after_waiting →
        getLoop cfg enc j e (ev :: rest) a el =
          (getLoop cfg enc j e rest (a + 1)
              (el + backoffWait cfg.toRetryCfg (a + 1) (j (a + 1)) (e (a + 1)))).consWait
            (backoffWait cfg.toRetryCfg (a + 1) (j (a + 1)) (e (a + 1)))) ∧
    -- a retryable failure with `elapsed` above the ceiling is re-raised to
    -- the caller at once, with no further wait and no further attempt
    (∀ (ev : NetAttempt α) (rest : List (NetAttempt α)) (a : ℕ) (el : ℚ)
        (exc : PyExc),
        tryBody cfg enc ev = .error exc →
        exc.kind ∈ cfg.retry_exceptions →
        el > cfg.stop_after_waiting →
        getLoop cfg enc j e (ev :: rest) a el = .raised exc []) ∧
    -- the default ceiling is 15 minutes
    defaultScraperCfg.stop_after_waiting = 15 * 60 := by
  refine ⟨?_, ?_, ?_, rfl⟩
  · intro trace exc ws h hmem
    have := getLoop_raised_retryable_sum cfg enc j e trace 0 0 exc ws h hmem
    linarith
  · intro ev rest a el exc htb hmem hel
    exact getLoop_cons_retry cfg enc j e ev rest a el exc htb hmem (not_lt.mpr hel)
  · intro ev rest a el exc htb hmem hel
    exact getLoop_cons_ceiling cfg enc j e ev rest a el exc htb hmem hel

/-- Witness for C1 (amended): the raised-implies-sum direction and the
above-ceiling re-raise direction at a configuration with ceiling -1 s (so
the very first retryable failure, at `elapsed = 0 > -1`, re-raises with an
empty wait list), and the retry direction at a configuration with ceiling
1 s and `elapsed = 0`. -/
theorem claim_C1_witness :
    List.sum ([] : List ℚ) > (⟨⟨-1, 100, 2, 0⟩, [.timeoutError], []⟩ : ScraperCfg).stop_after_waiting ∧
    getLoop ⟨⟨1, 100, 2, 0⟩, [.timeoutError], []⟩ none (fun _ => 0) (fun _ => 0)
        ([.exc 0 ⟨.timeoutError, none⟩] : List (NetAttempt ℕ)) 0 0 =
      (getLoop ⟨⟨1, 100, 2, 0⟩, [.timeoutError], []⟩ none (fun _ => 0) (fun _ => 0)
          ([] : List (NetAttempt ℕ)) (0 + 1)
          (0 + backoffWait ⟨1, 100, 2, 0⟩ (0 + 1) 0 0)).consWait
        (backoffWait ⟨1, 100, 2, 0⟩ (0 + 1) 0 0) ∧
    getLoop ⟨⟨-1, 100, 2, 0⟩, [.timeoutError], []⟩ none (fun _ => 0) (fun _ => 0)
        ([.exc 0 ⟨.timeoutError, none⟩] : List (NetAttempt ℕ)) 0 0 =
      .raised ⟨.timeoutError, none⟩ [] :=
  ⟨(claim_C1_elapsed_ceiling ⟨⟨-1, 100, 2, 0⟩, [.timeoutError], []⟩ none
      (fun _ => 0) (fun _ => 0)).1
      ([.exc 0 ⟨.timeoutError, none⟩] : List (NetAttempt ℕ)) ⟨.timeoutError, none⟩ []
      ((claim_C1_elapsed_ceiling ⟨⟨-1, 100, 2, 0⟩, [.timeoutError], []⟩ none
          (fun _ => 0) (fun _ => 0)).2.2.1
        (.exc 0 ⟨.timeoutError, none⟩) [] 0 0 ⟨.timeoutError, none⟩ rfl
        (by decide) (by norm_num))
      (by decide),
   (claim_C1_elapsed_ceiling ⟨⟨1, 100, 2, 0⟩, [.timeoutError], []⟩ none
      (fun _ => 0) (fun _ => 0)).2.1
      (.exc 0 ⟨.timeoutError, none⟩) [] 0 0 ⟨.timeoutError, none⟩ rfl
      (by decide) (by norm_num),
   (claim_C1_elapsed_ceiling ⟨⟨-1, 100, 2, 0⟩, [.timeoutError], []⟩ none
      (fun _ => 0) (fun _ => 0)).2.2.1
      (.exc 0 ⟨.timeoutError, none⟩) [] 0 0 ⟨.timeoutError, none⟩ rfl
      (by decide) (by norm_num)⟩

/-- C1 counterexample: with the default configuration (ceiling 900 s) and a
first attempt that itself takes 1000 s of wall clock before failing with a
retryable `asyncio.TimeoutError`, the wall-clock time since the first
attempt already exceeds the ceiling, yet `get` does not re-raise: it
performs a backoff wait (0.625 s here, with both jitter draws at 0) and
retries, returning the second attempt's response.  The code's `elapsed`
accumulates only the backoff waits, which at the failure total 0. -/
theorem claim_C1_counterexample :
    (NetAttempt.duration (.exc 1000 ⟨.timeoutError, none⟩ : NetAttempt ℕ) >
       defaultScraperCfg.stop_after_waiting) ∧
    ExcKind.timeoutError ∈ defaultScraperCfg.retry_exceptions ∧
    getLoop defaultScraperCfg none (fun _ => 0) (fun _ => 0)
        ([.exc 1000 ⟨.timeoutError, none⟩, .response 0 200 7] : List (NetAttempt ℕ)) 0 0 =
      .ok ⟨7, none, some 200⟩ [5 / 8] := by
  refine ⟨?_, by decide, ?_⟩
  · norm_num [NetAttempt.duration, defaultScraperCfg, defaultRetryCfg]
  · have hw : backoffWait defaultScraperCfg.toRetryCfg (0 + 1) 0 0 = 5 / 8 := by
      norm_num [backoffWait, defaultScraperCfg, defaultRetryCfg]
    have h1 : getLoop defaultScraperCfg none (fun _ => 0) (fun _ => 0)
        ([.exc 1000 ⟨.timeoutError, none⟩, .response 0 200 7] : List (NetAttempt ℕ)) 0 0 =
        (getLoop defaultScraperCfg none (fun _ => 0) (fun _ => 0)
            ([.response 0 200 7] : List (NetAttempt ℕ)) (0 + 1)
            (0 + backoffWait defaultScraperCfg.toRetryCfg (0 + 1) 0 0)).consWait
          (backoffWait defaultScraperCfg.toRetryCfg (0 + 1) 0 0) :=
      getLoop_cons_retry defaultScraperCfg none (fun _ => 0) (fun _ => 0) _ _ 0 0
        ⟨.timeoutError, none⟩ rfl (by decide)
        (by norm_num [defaultScraperCfg, defaultRetryCfg])
    have h2 : getLoop defaultScraperCfg none (fun _ => 0) (fun _ => 0)
        ([.response 0 200 7] : List (NetAttempt ℕ)) (0 + 1)
        (0 + backoffWait defaultScraperCfg.toRetryCfg (0 + 1) 0 0) =
        .ok ⟨7, none, some 200⟩ [] :=
      getLoop_cons_ok defaultScraperCfg none (fun _ => 0) (fun _ => 0) _ _ _ _ _
        (by simp [tryBody, defaultScraperCfg])
    rw [h1, h2, hw]
    rfl

/-- C2: `get_doc` invokes the source-supplied `_get_doc` and (1) returns
immediately, without any wait, whatever `_get_doc` returns; (2) on a raised
`ParseError` with `elapsed` at or below the ceiling it performs exactly one
backoff wait (computed by the same `backoffWait` as the transport loop) and
re-invokes `_get_doc`; (3) on a raised `ParseError` with `elapsed` above
the ceiling it re-raises that last `ParseError` at once, with no further
wait and no further invocation; (4) any other exception propagates
immediately with no wait; (5) a `ParseError` is re-raised only once
`elapsed` — the loop's own clock, started at 0 with its own attempt counter
for each `get_doc` call — exceeds the ceiling; and (6) if `_get_doc` raises
`ParseError` exactly twice and then returns a document, `get_doc` returns
that document after exactly two backoff waits. -/
theorem claim_C2_get_doc_retry {δ : Type} (cfg : ScraperCfg) (j e : ℕ → ℚ) :
    -- (1) a returned document (or None) is passed through with no wait
    (∀ (d : Option δ) (rest : List (DocAttempt δ)),
        get_doc cfg j e (.ret d :: rest) = .ok d []) ∧
    -- (2) ParseError at or below the ceiling: one backoff wait, then retry
    (∀ (exc : PyExc) (rest : List (DocAttempt δ)) (a : ℕ) (el : ℚ),
        exc.kind = .parseError →
        el ≤ cfg.stop_after_waiting →
        getDocLoop cfg j e (.raise exc :: rest) a el =
          (getDocLoop cfg j e rest (a + 1)
              (el + backoffWait cfg.toRetryCfg (a + 1) (j (a + 1)) (e (a + 1)))).consWait
            (backoffWait cfg.toRetryCfg (a + 1) (j (a + 1)) (e (a + 1)))) ∧
    -- (3) ParseError above the ceiling: the last ParseError is re-raised
    -- at once, with no further wait and no further invocation
    (∀ (exc : PyExc) (rest : List (DocAttempt δ)) (a : ℕ) (el : ℚ),
        exc.kind = .parseError →
        el > cfg.stop_after_waiting →
        getDocLoop cfg j e (.raise exc :: rest) a el = .raised exc []) ∧
    -- (4) any other exception propagates immediately, with no wait
    (∀ (exc : PyExc) (rest : List (DocAttempt δ)) (a : ℕ) (el : ℚ),
        exc.kind ≠ .parseError →
        getDocLoop cfg j e (.raise exc :: rest) a el = .raised exc []) ∧
    -- (5) a re-raised ParseError means the performed waits exceed the ceiling
    (∀ (trace : List (DocAttempt δ)) (exc : PyExc) (ws : List ℚ),
        get_doc cfg j e trace = .raised exc ws →
        exc.kind = .parseError →
        ws.sum > cfg.stop_after_waiting) ∧
    -- (6) two ParseErrors then a document: the document, after two waits
    (∀ d : Option δ,
        0 ≤ cfg.stop_after_waiting →
        cfg.max_wait + cfg.max_extra_jitter ≤ cfg.stop_after_waiting →
        e 1 ≤ cfg.max_extra_jitter →
        get_doc cfg j e [.raise ⟨.parseError, none⟩, .raise ⟨.parseError, none⟩,
            .ret d] =
          .ok d [backoffWait cfg.toRetryCfg 1 (j 1) (e 1),
                 backoffWait cfg.toRetryCfg 2 (j 2) (e 2)]) := by
  refine ⟨?_, ?_, ?_, ?_, ?_, ?_⟩
  · intro d rest
    exact getDocLoop_cons_ret cfg j e d rest 0 0
  · intro exc rest a el hk hel
    exact getDocLoop_cons_retry cfg j e exc rest a el hk (not_lt.mpr hel)
  · intro exc rest a el hk hel
    exact getDocLoop_cons_ceiling cfg j e exc rest a el hk hel
  · intro exc rest a el hk
    exact getDocLoop_cons_other cfg j e exc rest a el hk
  · intro trace exc ws h hpe
    have := getDocLoop_raised_parse_sum cfg j e trace 0 0 exc ws h hpe
    linarith
  · intro d h0 hcap he1
    have hw1cap : backoffWait cfg.toRetryCfg 1 (j 1) (e 1) ≤
        cfg.max_wait + cfg.max_extra_jitter := by
      unfold backoffWait
      dsimp only
      have := min_le_right (cfg.wait_base ^ 1 / 2 + j 1) cfg.max_wait
      linarith
    have h1 : getDocLoop cfg j e
        [.raise ⟨.parseError, none⟩, .raise (⟨.parseError, none⟩ : PyExc), .ret d] 0 0 =
        (getDocLoop cfg j e [.raise (⟨.parseError, none⟩ : PyExc), .ret d] 1
            (0 + backoffWait cfg.toRetryCfg 1 (j 1) (e 1))).consWait
          (backoffWait cfg.toRetryCfg 1 (j 1) (e 1)) :=
      getDocLoop_cons_retry cfg j e _ _ 0 0 rfl (not_lt.mpr h0)
    have h2 : getDocLoop cfg j e [.raise (⟨.parseError, none⟩ : PyExc), .ret d] 1
        (0 + backoffWait cfg.toRetryCfg 1 (j 1) (e 1)) =
        (getDocLoop cfg j e [DocAttempt.ret d] 2
            (0 + backoffWait cfg.toRetryCfg 1 (j 1) (e 1) +
              backoffWait cfg.toRetryCfg 2 (j 2) (e 2))).consWait
          (backoffWait cfg.toRetryCfg 2 (j 2) (e 2)) :=
      getDocLoop_cons_retry cfg j e _ _ 1 _ rfl (by push_neg; linarith)
    have h3 : getDocLoop cfg j e [DocAttempt.ret d] 2
        (0 + backoffWait cfg.toRetryCfg 1 (j 1) (e 1) +
          backoffWait cfg.toRetryCfg 2 (j 2) (e 2)) = .ok d [] :=
      getDocLoop_cons_ret cfg j e d [] 2 _
    unfold get_doc
    rw [h1, h2, h3]
    rfl

/-- Witness for C2 at the default configuration with both jitter draws at
zero: two `ParseError`s followed by a returned document yield that document
after exactly the two computed backoff waits; and a `ParseError` hit with
`elapsed = 901` seconds, above the 900-second ceiling, is re-raised at
once. -/
theorem claim_C2_witness :
    get_doc defaultScraperCfg (fun _ => 0) (fun _ => 0)
        [.raise ⟨.parseError, none⟩, .raise ⟨.parseError, none⟩,
         .ret (some (3 : ℕ))] =
      .ok (some 3) [backoffWait defaultScraperCfg.toRetryCfg 1 0 0,
                    backoffWait defaultScraperCfg.toRetryCfg 2 0 0] ∧
    getDocLoop defaultScraperCfg (fun _ => 0) (fun _ => 0)
        ([.raise ⟨.parseError, none⟩, .ret (some (3 : ℕ))]) 0 901 =
      .raised ⟨.parseError, none⟩ [] :=
  ⟨(claim_C2_get_doc_retry defaultScraperCfg (fun _ => 0) (fun _ => 0)).2.2.2.2.2
    (some 3)
    (by norm_num [defaultScraperCfg, defaultRetryCfg])
    (by norm_num [defaultScraperCfg, defaultRetryCfg])
    (by norm_num [defaultScraperCfg, defaultRetryCfg]),
   (claim_C2_get_doc_retry defaultScraperCfg (fun _ => 0) (fun _ => 0)).2.2.1
    ⟨.parseError, none⟩ [.ret (some (3 : ℕ))] 0 901 rfl
    (by norm_num [defaultScraperCfg, defaultRetryCfg])⟩

/-- C4 (amended): during a network fetch in `get`, a response whose HTTP
status is in the configured retryable-status set is never returned to the
caller: it is converted into a synthesized `ClientResponseError` carrying
that status, and that error is then retried exactly when
`ClientResponseError` is in the configured retryable-exception set — as it
is in the default configuration; an exception whose type is in the
configured retryable-exception set is retried (one backoff wait, while
under the ceiling); and every exception whose type is not in that set —
including the synthesized one, if the caller configured
`ClientResponseError` out of the set — propagates to the caller immediately
on first occurrence, without any backoff wait. -/
theorem claim_C4_retry_statuses {α : Type} (cfg : ScraperCfg)
    (enc : Option String) (j e : ℕ → ℚ) :
    -- (a) a response with a retryable status is never returned
    (∀ (trace : List (NetAttempt α)) (a : ℕ) (el : ℚ) (r : Response α)
        (ws : List ℚ) (s : ℕ),
        getLoop cfg enc j e trace a el = .ok r ws →
        r.status = some s →
        s ∉ cfg.retry_statuses) ∧
    -- (b) it is treated exactly like a raised ClientResponseError carrying
    -- that status
    (∀ (d : ℚ) (s : ℕ) (p : α) (rest : List (NetAttempt α)) (a : ℕ) (el : ℚ),
        s ∈ cfg.retry_statuses →
        getLoop cfg enc j e (.response d s p :: rest) a el =
          getLoop cfg enc j e (.exc d ⟨.clientResponseError, some s⟩ :: rest) a el) ∧
    -- (c) an exception whose type is in the retryable set is retried while
    -- under the ceiling: one backoff wait, then the next attempt
    (∀ (ev : NetAttempt α) (rest : List (NetAttempt α)) (a : ℕ) (el : ℚ)
        (exc : PyExc),
        tryBody cfg enc ev = .error exc →
        exc.kind ∈ cfg.retry_exceptions →
        el ≤ cfg.stop_after_waiting →
        getLoop cfg enc j e (ev :: rest) a el =
          (getLoop cfg enc j e rest (a + 1)
              (el + backoffWait cfg.toRetryCfg (a + 1) (j (a + 1)) (e (a + 1)))).consWait
            (backoffWait cfg.toRetryCfg (a + 1) (j (a + 1)) (e (a + 1)))) ∧
    -- (d) any exception whose type is outside the retryable set propagates
    -- immediately, with no backoff wait
    (∀ (ev : NetAttempt α) (rest : List (NetAttempt α)) (a : ℕ) (el : ℚ)
        (exc : PyExc),
        tryBody cfg enc ev = .error exc →
        exc.kind ∉ cfg.retry_exceptions →
        getLoop cfg enc j e (ev :: rest) a el = .raised exc []) ∧
    -- (e) the default configuration does retry the synthesized error
    ExcKind.clientResponseError ∈ defaultScraperCfg.retry_exceptions := by
  refine ⟨?_, ?_, ?_, ?_, by decide⟩
  · intro trace a el r ws s h hs
    exact getLoop_ok_status cfg enc j e trace a el r ws s h hs
  · intro d s p rest a el hs
    have h1 : tryBody (α := α) cfg enc (.response d s p) =
        .error ⟨.clientResponseError, some s⟩ := by
      simp [tryBody, hs]
    have h2 : tryBody (α := α) cfg enc (.exc d ⟨.clientResponseError, some s⟩) =
        .error ⟨.clientResponseError, some s⟩ := rfl
    simp only [getLoop, h1, h2]
  · intro ev rest a el exc htb hmem hel
    exact getLoop_cons_retry cfg enc j e ev rest a el exc htb hmem (not_lt.mpr hel)
  · intro ev rest a el exc htb hmem
    exact getLoop_cons_fatal cfg enc j e ev rest a el exc htb hmem

/-- Witness for C4 (amended): each implication applied at a concrete input
under the default configuration (and, for (d), the configuration with an
empty retryable-exception set). -/
theorem claim_C4_witness :
    (200 : ℕ) ∉ defaultScraperCfg.retry_statuses ∧
    getLoop defaultScraperCfg none (fun _ => 0) (fun _ => 0)
        ([.response 0 429 7] : List (NetAttempt ℕ)) 0 0 =
      getLoop defaultScraperCfg none (fun _ => 0) (fun _ => 0)
        ([.exc 0 ⟨.clientResponseError, some 429⟩] : List (NetAttempt ℕ)) 0 0 ∧
    getLoop defaultScraperCfg none (fun _ => 0) (fun _ => 0)
        ([.exc 0 ⟨.timeoutError, none⟩] : List (NetAttempt ℕ)) 0 0 =
      (getLoop defaultScraperCfg none (fun _ => 0) (fun _ => 0)
          ([] : List (NetAttempt ℕ)) (0 + 1)
          (0 + backoffWait defaultScraperCfg.toRetryCfg (0 + 1) 0 0)).consWait
        (backoffWait defaultScraperCfg.toRetryCfg (0 + 1) 0 0) ∧
    getLoop noRetryExcCfg none (fun _ => 0) (fun _ => 0)
        ([.exc 0 ⟨.timeoutError, none⟩] : List (NetAttempt ℕ)) 0 0 =
      .raised ⟨.timeoutError, none⟩ [] :=
  ⟨(claim_C4_retry_statuses defaultScraperCfg none (fun _ => 0) (fun _ => 0)).1
      [.response 0 200 7] 0 0 ⟨7, none, some 200⟩ [] 200
      (getLoop_cons_ok _ none (fun _ => 0) (fun _ => 0) _ [] 0 0 _
        (by simp [tryBody, defaultScraperCfg]))
      rfl,
   (claim_C4_retry_statuses defaultScraperCfg none (fun _ => 0) (fun _ => 0)).2.1
      0 429 7 [] 0 0 (by decide),
   (claim_C4_retry_statuses defaultScraperCfg none (fun _ => 0) (fun _ => 0)).2.2.1
      (.exc 0 ⟨.timeoutError, none⟩) [] 0 0 ⟨.timeoutError, none⟩ rfl (by decide)
      (by norm_num [defaultScraperCfg, defaultRetryCfg]),
   (claim_C4_retry_statuses noRetryExcCfg none (fun _ => 0) (fun _ => 0)).2.2.2.1
      (.exc 0 ⟨.timeoutError, none⟩) [] 0 0 ⟨.timeoutError, none⟩ rfl (by decide)⟩

/-- C4 counterexample: with retryable statuses `(429,)` but an empty
retryable-exception tuple, a 429 response is synthesized into a
`ClientResponseError` and then propagates to the caller immediately, with
zero backoff waits — it is not treated as a retryable transport failure,
even though the very next attempt would have succeeded. -/
theorem claim_C4_counterexample :
    (429 ∈ noRetryExcCfg.retry_statuses) ∧
    getLoop noRetryExcCfg none (fun _ => 0) (fun _ => 0)
        ([.response 0 429 7, .response 0 200 7] : List (NetAttempt ℕ)) 0 0 =
      .raised ⟨.clientResponseError, some 429⟩ [] ∧
    tryBody noRetryExcCfg none (.response 0 200 7 : NetAttempt ℕ) =
      .ok ⟨7, none, some 200⟩ := by
  refine ⟨by decide, ?_, by simp [tryBody, noRetryExcCfg]⟩
  exact getLoop_cons_fatal noRetryExcCfg none (fun _ => 0) (fun _ => 0) _ _ 0 0
    ⟨.clientResponseError, some 429⟩ (by simp [tryBody, noRetryExcCfg]) (by decide)

/-- C5 (code bug): for a request whose method is `open` pointing at an
existing local file, `get` does bypass the concurrency gate, the retry loop
and the network layer entirely, for every configuration — but it does not
return the file's bytes: the `open` branch (scraper.py line 160) applies
`await` to the `bytes` object returned by `reader.read()`, and a `bytes`
object is not awaitable, so the branch raises `TypeError` before any
`Response` is constructed.  The spec-modelled behaviour (`openBranchSpec`)
returns the file's bytes with the request's text encoding, as the claim
states. -/
theorem claim_C5_open_request_bug :
    (∀ (cfg : ScraperCfg) (j e : ℕ → ℚ) (trace : List (NetAttempt (List ℕ))),
        get cfg fixtureFs j e fixtureOpenReq trace =
          ⟨.raised ⟨.typeError, none⟩ [], 0, 0⟩) ∧
    openBranchSpec fixtureFs fixtureOpenReq = .ok ⟨[7, 7], some "utf-8", none⟩ :=
  ⟨fun _ _ _ _ => rfl, rfl⟩

/-- C7: if the scraper was constructed with a caller-supplied session that
is not closed, that session is the one used and the engine never closes it
(its closed/open state is unchanged by the attempt, on success and on
failure alike); otherwise the engine creates a fresh session for the single
fetch attempt and the `async with` exit always closes it, on success and on
failure alike — and even then the caller session's state is untouched. -/
theorem claim_C7_session_ownership (caller : Option Bool) (raised : Bool) :
    -- the caller session's open/closed state is unchanged by the attempt
    callerClosedAfter caller raised = caller ∧
    -- a supplied, not-closed session is the one used; its context exit
    -- closes nothing on either path
    (caller = some false →
      sessionUsed (chooseCtx caller) = .caller ∧
      ctxExitCloses (chooseCtx caller) raised = false) ∧
    -- otherwise a fresh session is created and is closed after its single
    -- use, on success and on failure alike
    (caller ≠ some false →
      sessionUsed (chooseCtx caller) = .engine ∧
      ctxExitCloses (chooseCtx caller) true = true ∧
      ctxExitCloses (chooseCtx caller) false = true) := by
  refine ⟨?_, ?_, ?_⟩
  · unfold callerClosedAfter
    cases chooseCtx caller <;> cases raised <;> rfl
  · intro h
    unfold chooseCtx
    rw [if_pos h]
    exact ⟨rfl, rfl⟩
  · intro h
    unfold chooseCtx
    rw [if_neg h]
    exact ⟨rfl, rfl, rfl⟩

/-- Witness for C7 at a caller-supplied open session (`some false`) and at
no caller session (`none`), both on the raised-exception exit path. -/
theorem claim_C7_witness :
    (callerClosedAfter (some false) true = some false ∧
     sessionUsed (chooseCtx (some false)) = .caller ∧
     ctxExitCloses (chooseCtx (some false)) true = false) ∧
    (callerClosedAfter none true = none ∧
     sessionUsed (chooseCtx none) = .engine ∧
     ctxExitCloses (chooseCtx none) true = true) :=
  ⟨⟨(claim_C7_session_ownership (some false) true).1,
    ((claim_C7_session_ownership (some false) true).2.1 rfl).1,
    ((claim_C7_session_ownership (some false) true).2.1 rfl).2⟩,
   ⟨(claim_C7_session_ownership none true).1,
    ((claim_C7_session_ownership none true).2.2 (by decide)).1,
    ((claim_C7_session_ownership none true).2.2 (by decide)).2.1⟩⟩

theorem requestsGuardedFrom_replicate (n d : ℕ) (hd : 0 < d) :
    requestsGuardedFrom d (List.replicate n .request ++ [.release]) = true := by
  induction n with
  | zero => simp [requestsGuardedFrom]
  | succ k ih =>
      rw [List.replicate_succ, List.cons_append, requestsGuardedFrom]
      simp only [ih, decide_eq_true hd, Bool.and_self]

/-- C8 (amended): of the two scrapers that take ownership of the engine's
gate and replace the engine's internal reference with a no-op gate, the
Federal Register of Legislation scraper executes all three composite
operations — index-request enumeration, index parsing and document
retrieval — inside an acquire/release scope of the taken gate, and the High
Court of Australia scraper does so for document retrieval; but the High
Court of Australia scraper's index-request enumeration and index parsing
issue their requests with no acquisition of the taken gate at all (and the
engine-internal gate they do traverse is the no-op `nullcontext`), so those
requests run outside any concurrency limit. -/
theorem claim_C8_gate_scopes :
    requestsGuarded frlGetIndexReqsOps = true ∧
    requestsGuarded frlGetIndexOps = true ∧
    (∀ n : ℕ, requestsGuarded (frlGetDocOps n) = true) ∧
    (∀ download : Bool, requestsGuarded (hcaGetDocOps download) = true) ∧
    requestsGuarded hcaIndexReqsFromBaseSerpOps = false ∧
    requestsGuarded hcaGetIndexOps = false := by
  refine ⟨by decide, by decide, ?_, ?_, by decide, by decide⟩
  · intro n
    unfold requestsGuarded frlGetDocOps
    rw [requestsGuardedFrom, requestsGuardedFrom]
    simp only [requestsGuardedFrom_replicate n (0 + 1) (by omega),
      decide_eq_true (by omega : 0 < 0 + 1), Bool.and_self]
  · intro download
    cases download <;> decide

/-- C8 counterexample: the High Court of Australia scraper's index parsing
(`get_index`) and index-request enumeration
(`_get_index_reqs_from_base_serp`) issue their network requests with no
acquire/release scope of the taken gate around them. -/
theorem claim_C8_counterexample :
    requestsGuarded hcaGetIndexOps = false ∧
    requestsGuarded hcaIndexReqsFromBaseSerpOps = false := by
  decide

/-- C6 (amended): the Federal Register of Legislation `get_index` raises
exactly when zero entries are found for a request (it never silently
returns an empty result), but the Western Australian Legislation
`get_index` performs no such check: whenever the page yields at most one
table row (header included), it silently returns the empty set, whatever
`_get_entry` would do. -/
theorem claim_C6_empty_index :
    (∀ value : List FrlRawEntry, value.length = 0 →
        frl_get_index value = .error .noEntries) ∧
    (∀ value : List FrlRawEntry, value.length ≠ 0 →
        frl_get_index value = value.mapM frlMkEntry) ∧
    (∀ (getEntry : List Char → Except ScrapeError Entry) (resp : List Char),
        (extractTrRows resp).drop 1 = [] →
        wa_get_index getEntry resp = .ok []) := by
  refine ⟨?_, ?_, ?_⟩
  · intro value hv
    unfold frl_get_index
    rw [if_pos hv]
  · intro value hv
    unfold frl_get_index
    rw [if_neg hv]
  · intro getEntry resp hrows
    unfold wa_get_index
    rw [hrows]
    rfl

/-- Witness for C6 (amended) at an empty value list, a one-element value
list, and the header-only Western Australian index page. -/
theorem claim_C6_witness :
    frl_get_index [] = .error .noEntries ∧
    frl_get_index [frlDemoRawEntry] = [frlDemoRawEntry].mapM frlMkEntry ∧
    wa_get_index (fun _ => .error .keyError) waHeaderOnlyPage = .ok [] :=
  ⟨(claim_C6_empty_index).1 [] rfl,
   (claim_C6_empty_index).2.1 [frlDemoRawEntry] (by decide),
   (claim_C6_empty_index).2.2 (fun _ => .error .keyError) waHeaderOnlyPage (by decide)⟩

/-- C6 counterexample: on an index page carrying only the header `<tr>` row
— zero entries found — the Western Australian Legislation `get_index`
returns the empty set instead of raising, even with a `_get_entry` that
raises on every row; so it is not the case that every source
implementation's `get_index` propagates a failure when zero entries are
found. -/
theorem claim_C6_counterexample :
    ((extractTrRows waHeaderOnlyPage).drop 1).length = 0 ∧
    wa_get_index (fun _ => .error .keyError) waHeaderOnlyPage = .ok [] := by
  constructor
  · decide
  · rfl

/-- C3: for every attempt counter `n ≥ 1`, base, caps, and any admissible
values of the injected uniform randomness, the backoff wait equals
`min(b^n/2 + jitter, max_wait) + extra_jitter` with `jitter ∈ [0, b^n/2]`
and `extra_jitter ∈ [0, max_extra_jitter]` added unconditionally; the
pre-cap sum `b^n/2 + jitter` is at most `b^n`; the wait never exceeds
`max_wait + max_extra_jitter`; and the expected wait is monotonically
non-decreasing in `n` while the cap is not hit (here: bases `b ≥ 1` and
`b^(n+1) ≤ max_wait`). -/
theorem claim_C3_backoff (cfg : RetryCfg) (n : ℕ) (jitter extra_jitter : ℚ)
    (hn : 1 ≤ n)
    (hj0 : 0 ≤ jitter) (hj : jitter ≤ cfg.wait_base ^ n / 2)
    (he0 : 0 ≤ extra_jitter) (he : extra_jitter ≤ cfg.max_extra_jitter) :
    backoffWait cfg n jitter extra_jitter =
      min (cfg.wait_base ^ n / 2 + jitter) cfg.max_wait + extra_jitter ∧
    cfg.wait_base ^ n / 2 + jitter ≤ cfg.wait_base ^ n ∧
    backoffWait cfg n jitter extra_jitter ≤ cfg.max_wait + cfg.max_extra_jitter ∧
    (1 ≤ cfg.wait_base → cfg.wait_base ^ (n + 1) ≤ cfg.max_wait →
      expectedBackoff cfg n ≤ expectedBackoff cfg (n + 1)) := by
  have hraw : (0 : ℚ) ≤ cfg.wait_base ^ n / 2 := le_trans hj0 hj
  refine ⟨rfl, ?_, ?_, ?_⟩
  · -- pre-cap bound: raw + jitter ≤ raw + raw = b^n
    have := add_le_add_left hj (cfg.wait_base ^ n / 2)
    linarith
  · -- absolute cap: min(..) ≤ max_wait, extra_jitter ≤ max_extra_jitter
    have h1 : min (cfg.wait_base ^ n / 2 + jitter) cfg.max_wait ≤ cfg.max_wait :=
      min_le_right _ _
    unfold backoffWait
    dsimp only
    linarith
  · -- monotone expectation while uncapped
    intro hb hcap
    have hb0 : (0 : ℚ) ≤ cfg.wait_base := le_trans zero_le_one hb
    have hpow : cfg.wait_base ^ n ≤ cfg.wait_base ^ (n + 1) :=
      pow_le_pow_right₀ hb (Nat.le_succ n)
    have hpow0 : (0 : ℚ) ≤ cfg.wait_base ^ n := pow_nonneg hb0 n
    have hpow0' : (0 : ℚ) ≤ cfg.wait_base ^ (n + 1) := pow_nonneg hb0 (n + 1)
    have hcapn : cfg.wait_base ^ n ≤ cfg.max_wait := le_trans hpow hcap
    -- in the uncapped regime both `min`s evaluate to their left argument
    have hminn : min (cfg.wait_base ^ n / 2 + cfg.wait_base ^ n / 4) cfg.max_wait =
        cfg.wait_base ^ n / 2 + cfg.wait_base ^ n / 4 := by
      apply min_eq_left
      linarith
    have hmins : min (cfg.wait_base ^ (n + 1) / 2 + cfg.wait_base ^ (n + 1) / 4)
        cfg.max_wait = cfg.wait_base ^ (n + 1) / 2 + cfg.wait_base ^ (n + 1) / 4 := by
      apply min_eq_left
      linarith
    unfold expectedBackoff backoffWait
    dsimp only
    rw [hminn, hmins]
    linarith

/-- Witness for C3 at the default configuration, attempt `n = 1`, and both
draws at zero. -/
theorem claim_C3_witness :
    (1 ≤ 1 ∧ (0 : ℚ) ≤ 0 ∧ (0 : ℚ) ≤ defaultRetryCfg.wait_base ^ 1 / 2 ∧
     (0 : ℚ) ≤ defaultRetryCfg.max_extra_jitter) ∧
    (backoffWait defaultRetryCfg 1 0 0 =
      min (defaultRetryCfg.wait_base ^ 1 / 2 + 0) defaultRetryCfg.max_wait + 0 ∧
    defaultRetryCfg.wait_base ^ 1 / 2 + 0 ≤ defaultRetryCfg.wait_base ^ 1 ∧
    backoffWait defaultRetryCfg 1 0 0 ≤
      defaultRetryCfg.max_wait + defaultRetryCfg.max_extra_jitter ∧
    (1 ≤ defaultRetryCfg.wait_base → defaultRetryCfg.wait_base ^ (1 + 1) ≤
        defaultRetryCfg.max_wait →
      expectedBackoff defaultRetryCfg 1 ≤ expectedBackoff defaultRetryCfg (1 + 1))) :=
  ⟨⟨le_refl 1, le_refl 0, by norm_num [defaultRetryCfg], by norm_num [defaultRetryCfg]⟩,
   claim_C3_backoff defaultRetryCfg 1 0 0 (le_refl 1) (le_refl 0)
     (by norm_num [defaultRetryCfg]) (le_refl 0) (by norm_num [defaultRetryCfg])⟩

/-- Witness for C9 at the concrete input `[1, 2, 3]` with `batch_size = 2`. -/
theorem claim_C9_witness :
    (1 : Nat) ≤ 2 ∧
    ((batch_generator [1, 2, 3] 2).flatten = [1, 2, 3] ∧
     (∀ b ∈ batch_generator [1, 2, 3] 2, b ≠ [] ∧ b.length ≤ 2) ∧
     (∀ b ∈ (batch_generator [1, 2, 3] 2).dropLast, b.length = 2) ∧
     batch_generator ([] : List Nat) 2 = []) :=
  ⟨by decide, claim_C9_batch_generator_partition [1, 2, 3] 2 (by decide)⟩

theorem splitNl_ne_nil (t : List Char) : splitNl t ≠ [] := by
  cases t with
  | nil => simp [splitNl]
  | cons c rest =>
      by_cases h : c = '\n'
      · simp [splitNl, h]
      · simp only [splitNl, if_neg h]
        cases splitNl rest <;> simp

theorem splitNl_cons_nl (rest : List Char) :
    splitNl ('\n' :: rest) = [] :: splitNl rest := by
  simp [splitNl]

theorem splitNl_cons_other (c : Char) (rest : List Char) (hc : c ≠ '\n') :
    splitNl (c :: rest) =
      match splitNl rest with
      | [] => [[c]]
      | l :: ls => (c :: l) :: ls := by
  simp only [splitNl, if_neg hc]

theorem joinNl_splitNl (t : List Char) : joinNl (splitNl t) = t := by
  induction t with
  | nil => rfl
  | cons c rest ih =>
      by_cases hc : c = '\n'
      · subst hc
        rw [splitNl_cons_nl]
        cases hs : splitNl rest with
        | nil => exact absurd hs (splitNl_ne_nil rest)
        | cons l ls =>
            have hj : joinNl (l :: ls) = rest := by rw [← hs]; exact ih
            show joinNl ([] :: l :: ls) = '\n' :: rest
            rw [show joinNl ([] :: l :: ls) = [] ++ '\n' :: joinNl (l :: ls) from rfl,
              hj]
            rfl
      · rw [splitNl_cons_other c rest hc]
        cases hs : splitNl rest with
        | nil => exact absurd hs (splitNl_ne_nil rest)
        | cons l ls =>
            have hj : joinNl (l :: ls) = rest := by rw [← hs]; exact ih
            cases ls with
            | nil =>
                show joinNl [c :: l] = c :: rest
                have hl : l = rest := by simpa [joinNl] using hj
                simp [joinNl, hl]
            | cons l2 ls2 =>
                show joinNl ((c :: l) :: l2 :: ls2) = c :: rest
                rw [show joinNl ((c :: l) :: l2 :: ls2) =
                    (c :: l) ++ '\n' :: joinNl (l2 :: ls2) from rfl]
                rw [show joinNl (l :: l2 :: ls2) =
                    l ++ '\n' :: joinNl (l2 :: ls2) from rfl] at hj
                simpa using hj

theorem mem_splitNl_no_nl (t : List Char) :
    ∀ l ∈ splitNl t, '\n' ∉ l := by
  induction t with
  | nil =>
      intro l hl
      simp only [splitNl, List.mem_singleton] at hl
      simp [hl]
  | cons c rest ih =>
      intro l hl
      by_cases hc : c = '\n'
      · subst hc
        rw [splitNl_cons_nl] at hl
        cases List.mem_cons.mp hl with
        | inl h => simp [h]
        | inr h => exact ih l h
      · rw [splitNl_cons_other c rest hc] at hl
        cases hs : splitNl rest with
        | nil => exact absurd hs (splitNl_ne_nil rest)
        | cons m ms =>
            rw [hs] at hl
            cases List.mem_cons.mp hl with
            | inl h =>
                subst h
                intro hmem
                cases List.mem_cons.mp hmem with
                | inl h' => exact hc h'.symm
                | inr h' => exact ih m (hs ▸ List.mem_cons_self m ms) h'
            | inr h => exact ih l (hs ▸ List.mem_cons_of_mem m h)

theorem mem_of_mem_splitNl (t : List Char) :
    ∀ l ∈ splitNl t, ∀ c ∈ l, c ∈ t := by
  induction t with
  | nil =>
      intro l hl c hc
      simp only [splitNl, List.mem_singleton] at hl
      subst hl
      exact absurd hc (List.not_mem_nil c)
  | cons d rest ih =>
      intro l hl c hc
      by_cases hd : d = '\n'
      · subst hd
        rw [splitNl_cons_nl] at hl
        cases List.mem_cons.mp hl with
        | inl h => subst h; exact absurd hc (List.not_mem_nil c)
        | inr h => exact List.mem_cons_of_mem _ (ih l h c hc)
      · rw [splitNl_cons_other d rest hd] at hl
        cases hs : splitNl rest with
        | nil => exact absurd hs (splitNl_ne_nil rest)
        | cons m ms =>
            rw [hs] at hl
            cases List.mem_cons.mp hl with
            | inl h =>
                subst h
                cases List.mem_cons.mp hc with
                | inl h' => subst h'; exact List.mem_cons_self c rest
                | inr h' =>
                    exact List.mem_cons_of_mem _
                      (ih m (hs ▸ List.mem_cons_self m ms) c h')
            | inr h =>
                exact List.mem_cons_of_mem _
                  (ih l (hs ▸ List.mem_cons_of_mem m h) c hc)

theorem splitNl_no_nl (l : List Char) (h : '\n' ∉ l) : splitNl l = [l] := by
  induction l with
  | nil => rfl
  | cons c rest ih =>
      have hc : c ≠ '\n' := fun hcc => h (hcc ▸ List.mem_cons_self c rest)
      rw [splitNl_cons_other c rest hc,
        ih (fun hm => h (List.mem_cons_of_mem c hm))]

theorem splitNl_append_nl (a b : List Char) :
    splitNl (a ++ '\n' :: b) = splitNl a ++ splitNl b := by
  induction a with
  | nil => rw [List.nil_append, splitNl_cons_nl]; rfl
  | cons c a' ih =>
      by_cases hc : c = '\n'
      · subst hc
        rw [List.cons_append, splitNl_cons_nl, splitNl_cons_nl, ih]
        rfl
      · rw [List.cons_append, splitNl_cons_other c _ hc,
          splitNl_cons_other c a' hc, ih]
        cases hs : splitNl a' with
        | nil => exact absurd hs (splitNl_ne_nil a')
        | cons m ms => rfl

theorem splitNl_joinNl (L : List (List Char)) (hne : L ≠ [])
    (hnl : ∀ l ∈ L, '\n' ∉ l) : splitNl (joinNl L) = L := by
  induction L with
  | nil => exact absurd rfl hne
  | cons l ls ih =>
      cases ls with
      | nil =>
          show splitNl (joinNl [l]) = [l]
          exact splitNl_no_nl l (hnl l (List.mem_cons_self l []))
      | cons l2 ls2 =>
          rw [show joinNl (l :: l2 :: ls2) = l ++ '\n' :: joinNl (l2 :: ls2) from rfl,
            splitNl_append_nl,
            splitNl_no_nl l (hnl l (List.mem_cons_self l _)),
            ih (by simp) (fun m hm => hnl m (List.mem_cons_of_mem l hm))]
          rfl

theorem rstrip_idem (l : List Char) : rstrip (rstrip l) = rstrip l := by
  unfold rstrip
  rw [List.reverse_reverse, List.dropWhile_idempotent]

theorem mem_of_mem_rstrip {l : List Char} {c : Char} (h : c ∈ rstrip l) : c ∈ l := by
  unfold rstrip at h
  rw [List.mem_reverse] at h
  have := (List.dropWhile_sublist (l := l.reverse) (p := pySpace)).subset h
  rwa [List.mem_reverse] at this

theorem mem_of_mem_joinNl {L : List (List Char)} {c : Char} (h : c ∈ joinNl L) :
    (∃ l ∈ L, c ∈ l) ∨ c = '\n' := by
  induction L with
  | nil => exact absurd h (List.not_mem_nil c)
  | cons l ls ih =>
      cases ls with
      | nil =>
          exact Or.inl ⟨l, List.mem_cons_self l [], h⟩
      | cons l2 ls2 =>
          rw [show joinNl (l :: l2 :: ls2) = l ++ '\n' :: joinNl (l2 :: ls2) from rfl] at h
          rcases List.mem_append.mp h with h' | h'
          · exact Or.inl ⟨l, List.mem_cons_self l _, h'⟩
          · cases List.mem_cons.mp h' with
            | inl hh => exact Or.inr hh
            | inr hh =>
                rcases ih hh with ⟨m, hm, hcm⟩ | hh'
                · exact Or.inl ⟨m, List.mem_cons_of_mem l hm, hcm⟩
                · exact Or.inr hh'

theorem dropWhile_first_false {α : Type} (q : α → Bool) (l : List α) (a : α)
    (as : List α) (h : l.dropWhile q = a :: as) : q a = false := by
  induction l with
  | nil => simp [List.dropWhile] at h
  | cons c rest ih =>
      rw [List.dropWhile_cons] at h
      by_cases hc : q c
      · rw [if_pos hc] at h
        exact ih h
      · rw [if_neg hc] at h
        injection h with h1 _
        rw [← h1]
        simpa using hc

/-- Closed form of `stripStart`: the text minus its leading whitespace run,
with the part of the run after its last newline put back in front. -/
theorem stripStart_eq (t : List Char) :
    stripStart t =
      ((t.takeWhile pySpace).reverse.takeWhile (fun c => c != '\n')).reverse ++
        t.dropWhile pySpace := by
  unfold stripStart
  have hw : t.takeWhile pySpace ++ t.dropWhile pySpace = t :=
    List.takeWhile_append_dropWhile _ _
  set w := t.takeWhile pySpace with hwdef
  set dp := t.dropWhile pySpace with hdpdef
  set r := w.reverse.dropWhile (fun c => c != '\n') with hrdef
  set tk := w.reverse.takeWhile (fun c => c != '\n') with htkdef
  have hsplit : tk ++ r = w.reverse := List.takeWhile_append_dropWhile _ _
  have hwt : w = r.reverse ++ tk.reverse := by
    have h2 := congrArg List.reverse hsplit
    rw [List.reverse_append, List.reverse_reverse] at h2
    exact h2.symm
  have ht : t = r.reverse ++ (tk.reverse ++ dp) := by
    rw [← hw, hwt, List.append_assoc]
  rw [ht, ← List.length_reverse r, List.drop_left]

/-- The text is the removed match followed by the `stripStart` output. -/
theorem stripStart_decomp (t : List Char) :
    t = ((t.takeWhile pySpace).reverse.dropWhile (fun c => c != '\n')).reverse ++
      stripStart t := by
  rw [stripStart_eq]
  have hw : t.takeWhile pySpace ++ t.dropWhile pySpace = t :=
    List.takeWhile_append_dropWhile _ _
  set w := t.takeWhile pySpace with hwdef
  set dp := t.dropWhile pySpace with hdpdef
  set r := w.reverse.dropWhile (fun c => c != '\n') with hrdef
  set tk := w.reverse.takeWhile (fun c => c != '\n') with htkdef
  have hsplit : tk ++ r = w.reverse := List.takeWhile_append_dropWhile _ _
  have hwt : w = r.reverse ++ tk.reverse := by
    have h2 := congrArg List.reverse hsplit
    rw [List.reverse_append, List.reverse_reverse] at h2
    exact h2.symm
  conv_lhs => rw [← hw, hwt]
  rw [List.append_assoc]

/-- Either the start-regex does not match, or the text is some prefix, a
newline, and the `stripStart` output. -/
theorem stripStart_self_or_decomp (t : List Char) :
    stripStart t = t ∨ ∃ p', t = p' ++ '\n' :: stripStart t := by
  by_cases hr : (t.takeWhile pySpace).reverse.dropWhile (fun c => c != '\n') = []
  · left
    unfold stripStart
    rw [hr]
    exact List.drop_zero t
  · right
    cases hc : (t.takeWhile pySpace).reverse.dropWhile (fun c => c != '\n') with
    | nil => exact absurd hc hr
    | cons a as =>
        have hqa : (a != '\n') = false := dropWhile_first_false _ _ a as hc
        have ha : a = '\n' := by simpa using hqa
        subst ha
        have h0 := stripStart_decomp t
        rw [hc] at h0
        refine ⟨as.reverse, ?_⟩
        rw [List.reverse_cons, List.append_assoc] at h0
        exact h0

/-- After `stripStart`, the leading whitespace run contains no newline:
the start-regex no longer matches. -/
theorem stripStart_no_nl (t : List Char) :
    '\n' ∉ (stripStart t).takeWhile pySpace := by
  rw [stripStart_eq]
  have hall : ∀ x ∈ ((t.takeWhile pySpace).reverse.takeWhile
      (fun c => c != '\n')).reverse, pySpace x := by
    intro x hx
    rw [List.mem_reverse] at hx
    have hx2 : x ∈ (t.takeWhile pySpace).reverse :=
      (List.takeWhile_sublist _).subset hx
    rw [List.mem_reverse] at hx2
    exact List.mem_takeWhile_imp hx2
  rw [List.takeWhile_append_of_pos hall]
  intro hmem
  rcases List.mem_append.mp hmem with h1 | h1
  · rw [List.mem_reverse] at h1
    have := List.mem_takeWhile_imp h1
    simp at this
  · cases hd : t.dropWhile pySpace with
    | nil =>
        rw [hd] at h1
        exact absurd h1 (by simp)
    | cons a as =>
        have hqa : pySpace a = false := dropWhile_first_false pySpace t a as hd
        rw [hd] at h1
        rw [List.takeWhile_cons] at h1
        rw [hqa] at h1
        exact absurd h1 (by simp)

/-- When the leading whitespace run has no newline, the start-regex does
not match and `stripStart` is the identity. -/
theorem stripStart_no_match (t : List Char)
    (h : '\n' ∉ t.takeWhile pySpace) : stripStart t = t := by
  unfold stripStart
  have hnil : (t.takeWhile pySpace).reverse.dropWhile (fun c => c != '\n') = [] := by
    rw [List.dropWhile_eq_nil_iff]
    intro x hx
    rw [List.mem_reverse] at hx
    have : x ≠ '\n' := fun he => h (he ▸ hx)
    simpa using this
  rw [hnil]
  exact List.drop_zero t

/-- Either the end-regex does not match, or the text is the `stripEnd`
output, a newline, and some suffix. -/
theorem stripEnd_self_or_decomp (t : List Char) :
    stripEnd t = t ∨ ∃ q', t = stripEnd t ++ '\n' :: q' := by
  rcases stripStart_self_or_decomp t.reverse with h | ⟨p', hp⟩
  · left
    unfold stripEnd
    rw [h, List.reverse_reverse]
  · right
    refine ⟨p'.reverse, ?_⟩
    have h2 := congrArg List.reverse hp
    rw [List.reverse_reverse, List.reverse_append, List.reverse_cons,
      List.append_assoc] at h2
    exact h2

/-- After `stripEnd`, the trailing whitespace run contains no newline: the
end-regex no longer matches. -/
theorem stripEnd_no_nl (t : List Char) :
    '\n' ∉ (stripEnd t).reverse.takeWhile pySpace := by
  unfold stripEnd
  rw [List.reverse_reverse]
  exact stripStart_no_nl t.reverse

/-- When the trailing whitespace run has no newline, the end-regex does not
match and `stripEnd` is the identity. -/
theorem stripEnd_no_match (t : List Char)
    (h : '\n' ∉ t.reverse.takeWhile pySpace) : stripEnd t = t := by
  unfold stripEnd
  rw [stripStart_no_match t.reverse h, List.reverse_reverse]

theorem mem_takeWhile_append {p : Char → Bool} {a : List Char} (b : List Char)
    {x : Char} (h : x ∈ a.takeWhile p) : x ∈ (a ++ b).takeWhile p := by
  induction a with
  | nil => exact absurd h (List.not_mem_nil x)
  | cons c a' ih =>
      rw [List.takeWhile_cons] at h
      rw [List.cons_append, List.takeWhile_cons]
      by_cases hc : p c
      · rw [if_pos hc] at h ⊢
        cases List.mem_cons.mp h with
        | inl h' => exact h' ▸ List.mem_cons_self c _
        | inr h' => exact List.mem_cons_of_mem c (ih h')
      · rw [if_neg hc] at h
        exact absurd h (List.not_mem_nil x)

theorem mem_of_mem_stripStart {t : List Char} {c : Char}
    (h : c ∈ stripStart t) : c ∈ t := by
  unfold stripStart at h
  exact List.drop_subset _ t h

theorem mem_of_mem_stripEnd {t : List Char} {c : Char}
    (h : c ∈ stripEnd t) : c ∈ t := by
  unfold stripEnd at h
  rw [List.mem_reverse] at h
  have h2 := mem_of_mem_stripStart h
  rwa [List.mem_reverse] at h2

theorem linesOk_stripStart {t : List Char}
    (h : ∀ l ∈ splitNl t, rstrip l = l) :
    ∀ l ∈ splitNl (stripStart t), rstrip l = l := by
  rcases stripStart_self_or_decomp t with he | ⟨p', hp⟩
  · rw [he]; exact h
  · intro l hl
    apply h
    rw [hp, splitNl_append_nl]
    exact List.mem_append_right _ hl

theorem linesOk_stripEnd {t : List Char}
    (h : ∀ l ∈ splitNl t, rstrip l = l) :
    ∀ l ∈ splitNl (stripEnd t), rstrip l = l := by
  rcases stripEnd_self_or_decomp t with he | ⟨q', hq⟩
  · rw [he]; exact h
  · intro l hl
    apply h
    rw [hq, splitNl_append_nl]
    exact List.mem_append_left _ hl

theorem splitNl_stripLineEnds (t : List Char) :
    splitNl (stripLineEnds t) = (splitNl t).map rstrip := by
  unfold stripLineEnds
  apply splitNl_joinNl
  · simpa using splitNl_ne_nil t
  · intro l hl
    rcases List.mem_map.mp hl with ⟨m, hm, rfl⟩
    intro hmem
    exact mem_splitNl_no_nl t m hm (mem_of_mem_rstrip hmem)

theorem linesOk_stripLineEnds (t : List Char) :
    ∀ l ∈ splitNl (stripLineEnds t), rstrip l = l := by
  rw [splitNl_stripLineEnds]
  intro l hl
  rcases List.mem_map.mp hl with ⟨m, _, rfl⟩
  exact rstrip_idem m

theorem stripLineEnds_no_op {t : List Char}
    (h : ∀ l ∈ splitNl t, rstrip l = l) : stripLineEnds t = t := by
  unfold stripLineEnds
  have h1 : (splitNl t).map rstrip = (splitNl t).map id :=
    List.map_congr_left (fun a ha => h a ha)
  rw [h1, List.map_id]
  exact joinNl_splitNl t

theorem rstrip_eq_self_last {l : List Char} (h : rstrip l = l)
    (pre : List Char) (c : Char) (hl : l = pre ++ [c]) : pySpace c = false := by
  have hrev : l.reverse.dropWhile pySpace = l.reverse := by
    have h2 := congrArg List.reverse h
    rwa [rstrip, List.reverse_reverse] at h2
  rw [hl, List.reverse_append] at hrev
  simp only [List.reverse_cons, List.reverse_nil, List.nil_append,
    List.singleton_append] at hrev
  rw [List.dropWhile_cons] at hrev
  by_cases hc : pySpace c
  · rw [if_pos hc] at hrev
    have hlen := congrArg List.length hrev
    have hle := (List.dropWhile_sublist (p := pySpace) (l := pre.reverse)).length_le
    simp only [List.length_cons] at hlen
    omega
  · simpa using hc

/-- C10: for every input, `clean_text` with `fix_encoding=False` (and the
other flags at their defaults) returns text that contains no non-breaking
space and none of the control characters `\a`, `\b`, `\f`, `\r`, `\v`; in
which no line ends with trailing whitespace (every line is a fixed point of
the trailing-whitespace strip; equivalently, a line's last character is
never whitespace); which neither begins with a whitespace-only prefix
ending in a newline (the `^\s*\n` regex no longer matches) nor ends with a
newline followed only by whitespace (the `\n\s*$` regex no longer matches);
and cleaning the output again with `fix_encoding=False` returns it
unchanged. -/
theorem claim_C10_clean_text (fixText : List Char → List Char) (s : List Char) :
    nbsp ∉ clean_text fixText s false true true true ∧
    (∀ c ∈ clean_text fixText s false true true true, nonStdCC c = false) ∧
    (∀ l ∈ splitNl (clean_text fixText s false true true true), rstrip l = l) ∧
    (∀ l ∈ splitNl (clean_text fixText s false true true true),
      ∀ (pre : List Char) (c : Char), l = pre ++ [c] → pySpace c = false) ∧
    '\n' ∉ (clean_text fixText s false true true true).takeWhile pySpace ∧
    '\n' ∉ (clean_text fixText s false true true true).reverse.takeWhile pySpace ∧
    clean_text fixText (clean_text fixText s false true true true)
        false true true true =
      clean_text fixText s false true true true := by
  have hct : ∀ u : List Char, clean_text fixText u false true true true =
      stripEnd (stripStart (stripLineEnds
        ((u.map (fun c => if c = nbsp then ' ' else c)).filter
          (fun c => !nonStdCC c)))) := fun u => rfl
  set s2 := (s.map (fun c => if c = nbsp then ' ' else c)).filter
    (fun c => !nonStdCC c) with hs2
  have hout : clean_text fixText s false true true true =
      stripEnd (stripStart (stripLineEnds s2)) := hct s
  set X := stripEnd (stripStart (stripLineEnds s2)) with hXdef
  have hmemX : ∀ c ∈ X, c ∈ s2 ∨ c = '\n' := by
    intro c hc
    rw [hXdef] at hc
    have hc2 := mem_of_mem_stripStart (mem_of_mem_stripEnd hc)
    unfold stripLineEnds at hc2
    rcases mem_of_mem_joinNl hc2 with ⟨l, hl, hcl⟩ | h'
    · rcases List.mem_map.mp hl with ⟨m, hm, rfl⟩
      exact Or.inl (mem_of_mem_splitNl s2 m hm c (mem_of_mem_rstrip hcl))
    · exact Or.inr h'
  have h1 : nbsp ∉ X := by
    intro h
    rcases hmemX nbsp h with h2 | h2
    · have h3 := List.mem_of_mem_filter h2
      rcases List.mem_map.mp h3 with ⟨a, _, ha⟩
      by_cases hax : a = nbsp
      · rw [if_pos hax] at ha
        exact absurd ha (by decide)
      · rw [if_neg hax] at ha
        exact hax ha
    · exact absurd h2 (by decide)
  have h2 : ∀ c ∈ X, nonStdCC c = false := by
    intro c hc
    rcases hmemX c hc with h' | h'
    · have := List.of_mem_filter h'
      simpa using this
    · rw [h']
      decide
  have h3 : ∀ l ∈ splitNl X, rstrip l = l := by
    rw [hXdef]
    exact linesOk_stripEnd (linesOk_stripStart (linesOk_stripLineEnds s2))
  have h4 : ∀ l ∈ splitNl X, ∀ (pre : List Char) (c : Char),
      l = pre ++ [c] → pySpace c = false :=
    fun l hl pre c hlc => rstrip_eq_self_last (h3 l hl) pre c hlc
  have h5 : '\n' ∉ X.takeWhile pySpace := by
    rw [hXdef]
    rcases stripEnd_self_or_decomp (stripStart (stripLineEnds s2)) with he | ⟨q', hq⟩
    · rw [he]
      exact stripStart_no_nl _
    · intro hmem'
      have h' := mem_takeWhile_append ('\n' :: q') hmem'
      rw [← hq] at h'
      exact stripStart_no_nl _ h'
  have h6 : '\n' ∉ X.reverse.takeWhile pySpace := by
    rw [hXdef]
    exact stripEnd_no_nl _
  have hid : clean_text fixText X false true true true = X := by
    rw [hct X]
    have hmap : X.map (fun c => if c = nbsp then ' ' else c) = X := by
      have hcong : X.map (fun c => if c = nbsp then ' ' else c) = X.map id :=
        List.map_congr_left (fun a ha => by
          have hne : a ≠ nbsp := fun h => h1 (h ▸ ha)
          exact if_neg hne)
      rw [hcong, List.map_id]
    have hfil : X.filter (fun c => !nonStdCC c) = X :=
      List.filter_eq_self.mpr (fun a ha => by rw [h2 a ha]; rfl)
    rw [hmap, hfil, stripLineEnds_no_op h3, stripStart_no_match _ h5,
      stripEnd_no_match _ h6]
  rw [hout]
  exact ⟨h1, h2, h3, h4, h5, h6, hid⟩

/-- Witness for C10: on the concrete input `" x \n"` the cleaned output is
`" x"`; its single line is its own `rstrip` and ends in the non-whitespace
character `x`. -/
theorem claim_C10_witness :
    rstrip (" x".toList) = " x".toList ∧ pySpace 'x' = false :=
  ⟨(claim_C10_clean_text id (" x \n".toList)).2.2.1
      (" x".toList) (by decide),
   (claim_C10_clean_text id (" x \n".toList)).2.2.2.1
      (" x".toList) (by decide) [' '] 'x' (by decide)⟩

end Oalc
